import Mathlib

/-!
# Verification of the push-relabel maximum-flow engine (maxflow-4.c)

Shallow embedding of the push-relabel solver from
`src/algorithms/graphs/max-flow/maxflow-4.c`.

Modelling conventions, stated once here:

* C `double` capacities and flows are modelled as exact rationals `ℚ`.
  Every property considered here is a property of the algorithm's exact
  arithmetic; none of the claims hinges on floating-point rounding.
* C `int` heights are modelled as `Int`.  The single place where the C
  program can overflow a height (`u->height = min + 1` in `relabel` with
  `min == INT_MAX`, i.e. the `INF` macro) is modelled with explicit
  two's-complement wraparound (`wrap32`), the de-facto behaviour of the
  undefined signed overflow on mainstream targets.  `INF` is `INT_MAX`,
  exactly as `#define INF INT_MAX` in the source.
* The growable circular buffer `queue` is modelled by its abstract FIFO
  content as a `List Nat` (front = head).  `enqueue` appends at the back,
  `dequeue` removes the head, `isEmpty` tests emptiness; the doubling of
  the backing array is memory management with no observable effect on the
  FIFO content.
* Node and edge records live in total functions `Nat → Node` / `Nat → Edge`
  together with the counts `nNodes` / `nEdges`, mirroring the C arrays
  `G->nodes` / `G->edges`; edge-array and adjacency-array growth
  (`safeRealloc`) is memory management and has no observable effect.
* `edge.rev` is a C pointer; it is modelled as the index of the twin edge.
  `safeCalloc` zero-initializes the pointer (NULL); the model's `addEdge`
  stores the index `0` for it, and `buildGraph` immediately overwrites it
  with the real twin index for every edge, exactly as the source does.
* `addEdge(G, uId, vId, cap, reverse)` dereferences `G->nodes[uId]`; for an
  out-of-range `uId` that access is out of bounds (a crash, not a reported
  failure).  The model returns `none` in that case.  The destination `vId`
  is stored without ever being dereferenced in `addEdge`, faithfully to the
  source, so an out-of-range destination is accepted at construction time.
* The solver's `while (!isEmpty(Q))` loop is modelled with explicit fuel
  (`runLoop`); `maxFlow fuel g s t` returns `some` of the final graph
  exactly when the queue drains within `fuel` iterations.
-/

/- `Rat.add`, `Rat.sub` and `Rat.mul` are `@[irreducible]` in Batteries; the
concrete evaluations below need them to reduce. -/
attribute [local semireducible] Rat.add Rat.sub Rat.mul

/-- `INF` from the source: `#define INF INT_MAX`. -/
def INF : Int := 2 ^ 31 - 1

/-- Two's-complement wraparound of a mathematical integer into the range of a
32-bit C `int`.  Used exactly where the C program stores `min + 1` into the
`int` height field and that sum can exceed `INT_MAX`. -/
def wrap32 (x : Int) : Int := (x + 2 ^ 31) % 2 ^ 32 - 2 ^ 31

/-- C struct `edge`: endpoints, capacity, flow, reverse flag and the index of
the paired twin edge (`struct edge *rev`, modelled as an index). -/
structure Edge where
  src : Nat
  dst : Nat
  cap : ℚ
  flow : ℚ
  isRev : Bool
  rev : Nat
  deriving Repr, DecidableEq

/-- C struct `node`: adjacency list of edge indices, height, the saved
current-arc cursor `adjIdx` and the excess.  The `id` field of the C struct
always equals the node's index in `G->nodes` and is represented by that
index. -/
structure Node where
  adj : List Nat
  height : Int
  adjIdx : Nat
  excess : ℚ
  deriving Repr, DecidableEq

/-- C struct `graph`.  The C field `maxFlow` (the stored answer) is the
structure field `PRGraph.maxFlow`. -/
structure PRGraph where
  nNodes : Nat
  nEdges : Nat
  nodes : Nat → Node
  edges : Nat → Edge
  maxFlow : ℚ

/-- `newNode`: `safeCalloc` zero-initializes every field. -/
def newNode : Node := ⟨[], 0, 0, 0⟩

/-- The all-zero edge record (`safeCalloc` in `addEdge` before the fields are
assigned). -/
def zeroEdge : Edge := ⟨0, 0, 0, 0, false, 0⟩

/-- `newGraph(n)`: a graph with `n` zero-initialized nodes and no edges. -/
def newGraph (n : Nat) : PRGraph :=
  ⟨n, 0, fun _ => newNode, fun _ => zeroEdge, 0⟩

/-! Field-update helpers (the C program mutates one field at a time). -/

def setFlow (g : PRGraph) (i : Nat) (x : ℚ) : PRGraph :=
  { g with edges := Function.update g.edges i { g.edges i with flow := x } }

def setRevIdx (g : PRGraph) (i : Nat) (r : Nat) : PRGraph :=
  { g with edges := Function.update g.edges i { g.edges i with rev := r } }

def setHeight (g : PRGraph) (u : Nat) (h : Int) : PRGraph :=
  { g with nodes := Function.update g.nodes u { g.nodes u with height := h } }

def setAdjIdx (g : PRGraph) (u : Nat) (i : Nat) : PRGraph :=
  { g with nodes := Function.update g.nodes u { g.nodes u with adjIdx := i } }

def addExcess (g : PRGraph) (u : Nat) (d : ℚ) : PRGraph :=
  let n := g.nodes u
  { g with nodes := Function.update g.nodes u { n with excess := n.excess + d } }

def pushAdj (g : PRGraph) (u : Nat) (eIdx : Nat) : PRGraph :=
  let n := g.nodes u
  { g with nodes := Function.update g.nodes u { n with adj := n.adj ++ [eIdx] } }

/-- `addEdge(G, uId, vId, cap, reverse)`: allocate the edge record, append the
new edge index to `u`'s adjacency list and the edge to the edge array.  The C
code dereferences `G->nodes[uId]`, so an out-of-range `uId` is an
out-of-bounds access (modelled as `none`); `vId` is stored unchecked.  The
twin pointer is left zero-initialized (NULL), as in the source. -/
def addEdge (g : PRGraph) (uId vId : Nat) (cap : ℚ) (reverse : Bool) :
    Option PRGraph :=
  if uId < g.nNodes then
    let e : Edge := ⟨uId, vId, cap, 0, reverse, 0⟩
    let g1 := pushAdj g uId g.nEdges
    some { g1 with
            edges := Function.update g1.edges g1.nEdges e
            nEdges := g1.nEdges + 1 }
  else none

/-- One iteration of `buildGraph`'s `while (scanf...)` loop: add the original
edge, add the zero-capacity reverse edge, and link the two twin pointers
(`G->edges[G->nEdges-2]->rev = G->edges[G->nEdges-1]` and conversely). -/
def addEdgePair (g : PRGraph) (u v : Nat) (cap : ℚ) : Option PRGraph :=
  match addEdge g u v cap false with
  | none => none
  | some g1 =>
    match addEdge g1 v u 0 true with
    | none => none
    | some g2 =>
      some (setRevIdx (setRevIdx g2 (g2.nEdges - 2) (g2.nEdges - 1))
              (g2.nEdges - 1) (g2.nEdges - 2))

/-- `buildGraph`: fold `addEdgePair` over the input triples (the `scanf` loop
reading `(u, v, cap)` triples from stdin). -/
def buildGraph (g : PRGraph) : List (Nat × Nat × ℚ) → Option PRGraph
  | [] => some g
  | (u, v, c) :: rest =>
    match addEdgePair g u v c with
    | none => none
    | some g1 => buildGraph g1 rest

/-- Body of the `for` loop of `initPreflow`, processing one adjacency entry
`eId` of the source: saturate the edge, negate the twin's flow, credit the
destination's excess and enqueue the destination. -/
def initStep (gq : PRGraph × List Nat) (eId : Nat) : PRGraph × List Nat :=
  let g := gq.1
  let e := g.edges eId
  let g1 := setFlow g eId e.cap
  let g2 := setFlow g1 e.rev (-e.cap)
  let g3 := addExcess g2 e.dst e.cap
  (g3, gq.2 ++ [e.dst])

/-- `initPreflow(G, s, Q)`: set `height(s) = nNodes`, then saturate every
edge in `s`'s adjacency list in order. -/
def initPreflow (g : PRGraph) (s : Nat) (q : List Nat) :
    PRGraph × List Nat :=
  let g0 := setHeight g s g.nNodes
  ((g0.nodes s).adj.foldl initStep (g0, q))

/-- The body of `push`'s admissible case: transfer
`delta = min(excess(u), cap - flow)` over edge `eId`, update the twin's
flow, move the excess, and enqueue the destination exactly when its
post-push excess equals `delta`. -/
def doPush (g : PRGraph) (uId eId : Nat) (q : List Nat) :
    PRGraph × List Nat :=
  let e := g.edges eId
  let v := e.dst
  let d := min ((g.nodes uId).excess) (e.cap - e.flow)
  let g2 := setFlow g eId (e.flow + d)
  let g3 := setFlow g2 e.rev ((g2.edges e.rev).flow - d)
  let g4 := addExcess g3 uId (-d)
  let g5 := addExcess g4 v d
  (g5, if (g5.nodes v).excess = d then q ++ [v] else q)

/-- The scan of `push(G, u, Q)` over the remaining adjacency entries, each
carried as `(i, eId)` where `i` is the position (for the `u->adjIdx = i`
write at the top of each iteration).  On an admissible edge — positive
residual capacity and `height(u) = height(dst) + 1` — it performs `doPush`
and reports success; on exhaustion it resets the cursor to `0` and reports
failure. -/
def pushLoop (uId : Nat) :
    List (Nat × Nat) → PRGraph → List Nat → PRGraph × List Nat × Bool
  | [], g, q => (setAdjIdx g uId 0, q, false)
  | (i, eId) :: rest, g, q =>
    let g1 := setAdjIdx g uId i
    let e := g1.edges eId
    if 0 < e.cap - e.flow ∧
        (g1.nodes uId).height = (g1.nodes e.dst).height + 1 then
      let r := doPush g1 uId eId q
      (r.1, r.2, true)
    else pushLoop uId rest g1 q

/-- `push(G, u, Q)`: scan `u`'s adjacency starting at the saved cursor
`u->adjIdx`. -/
def push (g : PRGraph) (uId : Nat) (q : List Nat) :
    PRGraph × List Nat × Bool :=
  pushLoop uId (((g.nodes uId).adj.enum).drop (g.nodes uId).adjIdx) g q

/-- The scan of `relabel`: the minimum height over residual out-edges,
starting from `INF`. -/
def relabelMin (g : PRGraph) : List Nat → Int → Int
  | [], m => m
  | eId :: rest, m =>
    let e := g.edges eId
    let h := (g.nodes e.dst).height
    relabelMin g rest (if 0 < e.cap - e.flow ∧ h < m then min m h else m)

/-- `relabel(G, u, Q)`: set `u->height = min + 1`.  The addition and the
store into the `int` field are performed in 32-bit two's-complement
arithmetic (`wrap32`); with no residual out-edge `min` stays `INF = INT_MAX`
and the store overflows.  The queue argument is received and never used,
exactly as in the source. -/
def relabel (g : PRGraph) (uId : Nat) (q : List Nat) :
    PRGraph × List Nat :=
  let m := relabelMin g (g.nodes uId).adj INF
  (setHeight g uId (wrap32 (m + 1)), q)

/-- One iteration of the discharge loop of `maxFlow`: dequeue, discard the
source and the sink, otherwise push or (on failure) relabel, and re-enqueue
the node if it still has excess. -/
def loopStep (s t : Nat) : PRGraph × List Nat → PRGraph × List Nat
  | (g, []) => (g, [])
  | (g, uId :: rest) =>
    if uId = t ∨ uId = s then (g, rest)
    else
      let r := push g uId rest
      let gq :=
        if r.2.2 then (r.1, r.2.1)
        else relabel r.1 uId r.2.1
      if 0 < (gq.1.nodes uId).excess then (gq.1, gq.2 ++ [uId])
      else gq

/-- The discharge loop with explicit fuel: iterate `loopStep` until the
queue is empty or the fuel runs out. -/
def runLoop (s t : Nat) : Nat → PRGraph × List Nat → PRGraph × List Nat
  | 0, gq => gq
  | _ + 1, (g, []) => (g, [])
  | k + 1, (g, u :: rest) => runLoop s t k (loopStep s t (g, u :: rest))

/-- `maxFlow(G, s, t)`: initialize the preflow from an empty queue, run the
discharge loop, and store the sink's excess as the answer.  Returns `some`
of the final graph exactly when the queue drained within `fuel`
iterations. -/
def maxFlow (fuel : Nat) (g : PRGraph) (s t : Nat) : Option PRGraph :=
  let st0 := initPreflow g s []
  let st1 := runLoop s t fuel st0
  if st1.2 = [] then
    some { st1.1 with maxFlow := ((st1.1).nodes t).excess }
  else none

/-! ## Derived notions used by the specification -/

/-- Residual capacity of edge `i`: `cap - flow`. -/
def residualCap (g : PRGraph) (i : Nat) : ℚ :=
  (g.edges i).cap - (g.edges i).flow

/-- Height validity (spec §3 invariant 4): every edge with positive residual
capacity satisfies `height(src) ≤ height(dst) + 1`. -/
def heightValid (g : PRGraph) : Prop :=
  ∀ i < g.nEdges, 0 < residualCap g i →
    (g.nodes (g.edges i).src).height ≤ (g.nodes (g.edges i).dst).height + 1

instance (g : PRGraph) : Decidable (heightValid g) := by
  unfold heightValid residualCap; infer_instance

/-- Skew symmetry (spec §3 invariant 2): `flow(twin(e)) = -flow(e)`. -/
def skewSym (g : PRGraph) : Prop :=
  ∀ i < g.nEdges, (g.edges (g.edges i).rev).flow = -(g.edges i).flow

instance (g : PRGraph) : Decidable (skewSym g) := by
  unfold skewSym; infer_instance

/-- Every edge's flow is bounded by its capacity. -/
def flowLeCap (g : PRGraph) : Prop :=
  ∀ i < g.nEdges, (g.edges i).flow ≤ (g.edges i).cap

/-- Every node's excess is non-negative. -/
def excessNonneg (g : PRGraph) : Prop :=
  ∀ u < g.nNodes, 0 ≤ (g.nodes u).excess

/-- Total flow entering node `u` over all edges (originals and twins). -/
def inflow (g : PRGraph) (u : Nat) : ℚ :=
  ∑ i ∈ Finset.range g.nEdges, if (g.edges i).dst = u then (g.edges i).flow else 0

/-- Total flow leaving node `u` over all edges (originals and twins). -/
def outflow (g : PRGraph) (u : Nat) : ℚ :=
  ∑ i ∈ Finset.range g.nEdges, if (g.edges i).src = u then (g.edges i).flow else 0

/-- The tracked `excess` field agrees with the flow entering the node, for
every node other than the source (the source's excess is not debited by
`initPreflow`). -/
def excessEq (g : PRGraph) (s : Nat) : Prop :=
  ∀ u < g.nNodes, u ≠ s → (g.nodes u).excess = inflow g u

/-- All queue entries are node indices. -/
def queueWF (g : PRGraph) (q : List Nat) : Prop :=
  ∀ x ∈ q, x < g.nNodes

/-- Every active node (positive excess, not source, not sink) is in the
queue. -/
def activeQueued (s t : Nat) (g : PRGraph) (q : List Nat) : Prop :=
  ∀ u < g.nNodes, u ≠ s → u ≠ t → 0 < (g.nodes u).excess → u ∈ q

/-- Structural well-formedness of the edge store, as `buildGraph` produces
it: twins are paired involutively, a twin swaps the endpoints, exactly one
of each pair carries the `reverse` flag, reverse edges have capacity `0`,
and endpoints are in range. -/
structure EdgesWF (g : PRGraph) : Prop where
  revLt : ∀ i < g.nEdges, (g.edges i).rev < g.nEdges
  revInvol : ∀ i < g.nEdges, (g.edges (g.edges i).rev).rev = i
  revNe : ∀ i < g.nEdges, (g.edges i).rev ≠ i
  revSrc : ∀ i < g.nEdges, (g.edges (g.edges i).rev).src = (g.edges i).dst
  revDst : ∀ i < g.nEdges, (g.edges (g.edges i).rev).dst = (g.edges i).src
  revFlag : ∀ i < g.nEdges, (g.edges (g.edges i).rev).isRev = !(g.edges i).isRev
  revCap0 : ∀ i < g.nEdges, (g.edges i).isRev = true → (g.edges i).cap = 0
  srcLt : ∀ i < g.nEdges, (g.edges i).src < g.nNodes
  dstLt : ∀ i < g.nEdges, (g.edges i).dst < g.nNodes

/-- Well-formedness of the adjacency lists: entries are edge indices of
edges leaving the node, without duplicates. -/
def adjWF (g : PRGraph) : Prop :=
  ∀ u < g.nNodes,
    (∀ e ∈ (g.nodes u).adj, e < g.nEdges ∧ (g.edges e).src = u) ∧
      (g.nodes u).adj.Nodup

/-- All capacities are non-negative (holds when the construction input has
non-negative capacities; reverse edges have capacity `0`). -/
def capsNonneg (g : PRGraph) : Prop :=
  ∀ i < g.nEdges, 0 ≤ (g.edges i).cap

/-- The engine never changes the graph's structure: node/edge counts,
endpoints, capacities, flags, twin pointers and adjacency lists are left
intact by `push`, `relabel` and the discharge loop, which only update
flows, excesses, heights and cursors. -/
def StructEq (g g' : PRGraph) : Prop :=
  g'.nNodes = g.nNodes ∧ g'.nEdges = g.nEdges ∧
    (∀ i, (g'.edges i).src = (g.edges i).src) ∧
    (∀ i, (g'.edges i).dst = (g.edges i).dst) ∧
    (∀ i, (g'.edges i).cap = (g.edges i).cap) ∧
    (∀ i, (g'.edges i).isRev = (g.edges i).isRev) ∧
    (∀ i, (g'.edges i).rev = (g.edges i).rev) ∧
    (∀ u, (g'.nodes u).adj = (g.nodes u).adj)

/-! ## Small-step lemmas about the field updates -/

theorem StructEq.refl (g : PRGraph) : StructEq g g :=
  ⟨rfl, rfl, fun _ => rfl, fun _ => rfl, fun _ => rfl, fun _ => rfl,
    fun _ => rfl, fun _ => rfl⟩

theorem StructEq.trans {g1 g2 g3 : PRGraph}
    (h1 : StructEq g1 g2) (h2 : StructEq g2 g3) : StructEq g1 g3 := by
  obtain ⟨a1, b1, c1, d1, e1, f1, r1, j1⟩ := h1
  obtain ⟨a2, b2, c2, d2, e2, f2, r2, j2⟩ := h2
  exact ⟨a2.trans a1, b2.trans b1, fun i => (c2 i).trans (c1 i),
    fun i => (d2 i).trans (d1 i), fun i => (e2 i).trans (e1 i),
    fun i => (f2 i).trans (f1 i), fun i => (r2 i).trans (r1 i),
    fun u => (j2 u).trans (j1 u)⟩

@[simp] theorem setFlow_nNodes (g : PRGraph) (j : Nat) (x : ℚ) :
    (setFlow g j x).nNodes = g.nNodes := rfl

@[simp] theorem setFlow_nEdges (g : PRGraph) (j : Nat) (x : ℚ) :
    (setFlow g j x).nEdges = g.nEdges := rfl

@[simp] theorem setFlow_nodes (g : PRGraph) (j : Nat) (x : ℚ) :
    (setFlow g j x).nodes = g.nodes := rfl

@[simp] theorem setFlow_src (g : PRGraph) (j : Nat) (x : ℚ) (i : Nat) :
    ((setFlow g j x).edges i).src = (g.edges i).src := by
  unfold setFlow; rcases eq_or_ne i j with h | h
  · subst h; simp
  · simp [Function.update_noteq h]

@[simp] theorem setFlow_dst (g : PRGraph) (j : Nat) (x : ℚ) (i : Nat) :
    ((setFlow g j x).edges i).dst = (g.edges i).dst := by
  unfold setFlow; rcases eq_or_ne i j with h | h
  · subst h; simp
  · simp [Function.update_noteq h]

@[simp] theorem setFlow_cap (g : PRGraph) (j : Nat) (x : ℚ) (i : Nat) :
    ((setFlow g j x).edges i).cap = (g.edges i).cap := by
  unfold setFlow; rcases eq_or_ne i j with h | h
  · subst h; simp
  · simp [Function.update_noteq h]

@[simp] theorem setFlow_isRev (g : PRGraph) (j : Nat) (x : ℚ) (i : Nat) :
    ((setFlow g j x).edges i).isRev = (g.edges i).isRev := by
  unfold setFlow; rcases eq_or_ne i j with h | h
  · subst h; simp
  · simp [Function.update_noteq h]

@[simp] theorem setFlow_rev (g : PRGraph) (j : Nat) (x : ℚ) (i : Nat) :
    ((setFlow g j x).edges i).rev = (g.edges i).rev := by
  unfold setFlow; rcases eq_or_ne i j with h | h
  · subst h; simp
  · simp [Function.update_noteq h]

theorem setFlow_flow (g : PRGraph) (j : Nat) (x : ℚ) (i : Nat) :
    ((setFlow g j x).edges i).flow = if i = j then x else (g.edges i).flow := by
  unfold setFlow; rcases eq_or_ne i j with h | h
  · subst h; simp
  · simp [Function.update_noteq h, h]

@[simp] theorem setFlow_flow_same (g : PRGraph) (j : Nat) (x : ℚ) :
    ((setFlow g j x).edges j).flow = x := by
  simp [setFlow_flow]

theorem setFlow_flow_ne (g : PRGraph) (j : Nat) (x : ℚ) {i : Nat}
    (h : i ≠ j) : ((setFlow g j x).edges i).flow = (g.edges i).flow := by
  simp [setFlow_flow, h]

@[simp] theorem setHeight_nNodes (g : PRGraph) (u : Nat) (h : Int) :
    (setHeight g u h).nNodes = g.nNodes := rfl

@[simp] theorem setHeight_nEdges (g : PRGraph) (u : Nat) (h : Int) :
    (setHeight g u h).nEdges = g.nEdges := rfl

@[simp] theorem setHeight_edges (g : PRGraph) (u : Nat) (h : Int) :
    (setHeight g u h).edges = g.edges := rfl

@[simp] theorem setHeight_maxFlow (g : PRGraph) (u : Nat) (h : Int) :
    (setHeight g u h).maxFlow = g.maxFlow := rfl

theorem setHeight_height (g : PRGraph) (u : Nat) (h : Int) (w : Nat) :
    ((setHeight g u h).nodes w).height =
      if w = u then h else (g.nodes w).height := by
  unfold setHeight; rcases eq_or_ne w u with e | e
  · subst e; simp
  · simp [Function.update_noteq e, e]

@[simp] theorem setHeight_adj (g : PRGraph) (u : Nat) (h : Int) (w : Nat) :
    ((setHeight g u h).nodes w).adj = (g.nodes w).adj := by
  unfold setHeight; rcases eq_or_ne w u with e | e
  · subst e; simp
  · simp [Function.update_noteq e]

@[simp] theorem setHeight_adjIdx (g : PRGraph) (u : Nat) (h : Int) (w : Nat) :
    ((setHeight g u h).nodes w).adjIdx = (g.nodes w).adjIdx := by
  unfold setHeight; rcases eq_or_ne w u with e | e
  · subst e; simp
  · simp [Function.update_noteq e]

@[simp] theorem setHeight_excess (g : PRGraph) (u : Nat) (h : Int) (w : Nat) :
    ((setHeight g u h).nodes w).excess = (g.nodes w).excess := by
  unfold setHeight; rcases eq_or_ne w u with e | e
  · subst e; simp
  · simp [Function.update_noteq e]

@[simp] theorem setAdjIdx_nNodes (g : PRGraph) (u i : Nat) :
    (setAdjIdx g u i).nNodes = g.nNodes := rfl

@[simp] theorem setAdjIdx_nEdges (g : PRGraph) (u i : Nat) :
    (setAdjIdx g u i).nEdges = g.nEdges := rfl

@[simp] theorem setAdjIdx_edges (g : PRGraph) (u i : Nat) :
    (setAdjIdx g u i).edges = g.edges := rfl

@[simp] theorem setAdjIdx_height (g : PRGraph) (u i w : Nat) :
    ((setAdjIdx g u i).nodes w).height = (g.nodes w).height := by
  unfold setAdjIdx; rcases eq_or_ne w u with e | e
  · subst e; simp
  · simp [Function.update_noteq e]

@[simp] theorem setAdjIdx_adj (g : PRGraph) (u i w : Nat) :
    ((setAdjIdx g u i).nodes w).adj = (g.nodes w).adj := by
  unfold setAdjIdx; rcases eq_or_ne w u with e | e
  · subst e; simp
  · simp [Function.update_noteq e]

@[simp] theorem setAdjIdx_excess (g : PRGraph) (u i w : Nat) :
    ((setAdjIdx g u i).nodes w).excess = (g.nodes w).excess := by
  unfold setAdjIdx; rcases eq_or_ne w u with e | e
  · subst e; simp
  · simp [Function.update_noteq e]

@[simp] theorem addExcess_nNodes (g : PRGraph) (u : Nat) (d : ℚ) :
    (addExcess g u d).nNodes = g.nNodes := rfl

@[simp] theorem addExcess_nEdges (g : PRGraph) (u : Nat) (d : ℚ) :
    (addExcess g u d).nEdges = g.nEdges := rfl

@[simp] theorem addExcess_edges (g : PRGraph) (u : Nat) (d : ℚ) :
    (addExcess g u d).edges = g.edges := rfl

theorem addExcess_excess (g : PRGraph) (u : Nat) (d : ℚ) (w : Nat) :
    ((addExcess g u d).nodes w).excess =
      if w = u then (g.nodes u).excess + d else (g.nodes w).excess := by
  unfold addExcess; rcases eq_or_ne w u with e | e
  · subst e; simp
  · simp [Function.update_noteq e, e]

@[simp] theorem addExcess_height (g : PRGraph) (u : Nat) (d : ℚ) (w : Nat) :
    ((addExcess g u d).nodes w).height = (g.nodes w).height := by
  unfold addExcess; rcases eq_or_ne w u with e | e
  · subst e; simp
  · simp [Function.update_noteq e]

@[simp] theorem addExcess_adj (g : PRGraph) (u : Nat) (d : ℚ) (w : Nat) :
    ((addExcess g u d).nodes w).adj = (g.nodes w).adj := by
  unfold addExcess; rcases eq_or_ne w u with e | e
  · subst e; simp
  · simp [Function.update_noteq e]

@[simp] theorem addExcess_adjIdx (g : PRGraph) (u : Nat) (d : ℚ) (w : Nat) :
    ((addExcess g u d).nodes w).adjIdx = (g.nodes w).adjIdx := by
  unfold addExcess; rcases eq_or_ne w u with e | e
  · subst e; simp
  · simp [Function.update_noteq e]

theorem structEq_setFlow (g : PRGraph) (j : Nat) (x : ℚ) :
    StructEq g (setFlow g j x) :=
  ⟨rfl, rfl, fun i => setFlow_src g j x i, fun i => setFlow_dst g j x i,
    fun i => setFlow_cap g j x i, fun i => setFlow_isRev g j x i,
    fun i => setFlow_rev g j x i, fun _ => rfl⟩

theorem structEq_setHeight (g : PRGraph) (u : Nat) (h : Int) :
    StructEq g (setHeight g u h) :=
  ⟨rfl, rfl, fun _ => rfl, fun _ => rfl, fun _ => rfl, fun _ => rfl,
    fun _ => rfl, fun w => setHeight_adj g u h w⟩

theorem structEq_setAdjIdx (g : PRGraph) (u i : Nat) :
    StructEq g (setAdjIdx g u i) :=
  ⟨rfl, rfl, fun _ => rfl, fun _ => rfl, fun _ => rfl, fun _ => rfl,
    fun _ => rfl, fun w => setAdjIdx_adj g u i w⟩

theorem structEq_addExcess (g : PRGraph) (u : Nat) (d : ℚ) :
    StructEq g (addExcess g u d) :=
  ⟨rfl, rfl, fun _ => rfl, fun _ => rfl, fun _ => rfl, fun _ => rfl,
    fun _ => rfl, fun w => addExcess_adj g u d w⟩

theorem structEq_initStep (gq : PRGraph × List Nat) (eId : Nat) :
    StructEq gq.1 (initStep gq eId).1 := by
  unfold initStep
  exact ((structEq_setFlow _ _ _).trans (structEq_setFlow _ _ _)).trans
    (structEq_addExcess _ _ _)

theorem structEq_initFold (l : List Nat) :
    ∀ gq : PRGraph × List Nat, StructEq gq.1 (l.foldl initStep gq).1 := by
  induction l with
  | nil => exact fun gq => StructEq.refl _
  | cons e rest ih =>
    intro gq
    exact (structEq_initStep gq e).trans (ih (initStep gq e))

theorem structEq_initPreflow (g : PRGraph) (s : Nat) (q : List Nat) :
    StructEq g (initPreflow g s q).1 := by
  unfold initPreflow
  exact (structEq_setHeight g s g.nNodes).trans (structEq_initFold _ _)

theorem structEq_doPush (g : PRGraph) (uId eId : Nat) (q : List Nat) :
    StructEq g (doPush g uId eId q).1 := by
  unfold doPush
  exact (((structEq_setFlow _ _ _).trans (structEq_setFlow _ _ _)).trans
    (structEq_addExcess _ _ _)).trans (structEq_addExcess _ _ _)

theorem structEq_pushLoop (uId : Nat) (l : List (Nat × Nat)) :
    ∀ (g : PRGraph) (q : List Nat), StructEq g (pushLoop uId l g q).1 := by
  induction l with
  | nil => intro g q; exact structEq_setAdjIdx g uId 0
  | cons p rest ih =>
    intro g q
    obtain ⟨i, eId⟩ := p
    show StructEq g (pushLoop uId ((i, eId) :: rest) g q).1
    rw [pushLoop]
    split
    · exact (structEq_setAdjIdx g uId i).trans
        (structEq_doPush (setAdjIdx g uId i) uId eId q)
    · exact (structEq_setAdjIdx g uId i).trans (ih (setAdjIdx g uId i) q)

theorem structEq_push (g : PRGraph) (uId : Nat) (q : List Nat) :
    StructEq g (push g uId q).1 :=
  structEq_pushLoop uId _ g q

theorem structEq_relabel (g : PRGraph) (uId : Nat) (q : List Nat) :
    StructEq g (relabel g uId q).1 :=
  structEq_setHeight g uId _

theorem structEq_loopStep (s t : Nat) (gq : PRGraph × List Nat) :
    StructEq gq.1 (loopStep s t gq).1 := by
  obtain ⟨g, q⟩ := gq
  cases q with
  | nil => exact StructEq.refl _
  | cons u rest =>
    show StructEq g (loopStep s t (g, u :: rest)).1
    rw [loopStep]
    split
    · exact StructEq.refl _
    · dsimp only
      by_cases hb : (push g u rest).2.2 = true
      · rw [if_pos hb]
        dsimp only
        split
        · exact structEq_push g u rest
        · exact structEq_push g u rest
      · rw [if_neg hb]
        split
        · exact (structEq_push g u rest).trans (structEq_relabel _ _ _)
        · exact (structEq_push g u rest).trans (structEq_relabel _ _ _)

theorem structEq_runLoop (s t : Nat) (k : Nat) :
    ∀ gq : PRGraph × List Nat, StructEq gq.1 (runLoop s t k gq).1 := by
  induction k with
  | zero => exact fun gq => StructEq.refl _
  | succ k ih =>
    intro gq
    obtain ⟨g, q⟩ := gq
    cases q with
    | nil => exact StructEq.refl _
    | cons u rest =>
      exact (structEq_loopStep s t (g, u :: rest)).trans (ih _)

/-- `EdgesWF` only depends on the structure, so it survives the engine. -/
theorem edgesWF_of_structEq {g g' : PRGraph} (hs : StructEq g g')
    (h : EdgesWF g) : EdgesWF g' := by
  obtain ⟨hn, hm, hsrc, hdst, hcap, hflag, hrev, _⟩ := hs
  refine ⟨?_, ?_, ?_, ?_, ?_, ?_, ?_, ?_, ?_⟩ <;> intro i hi
  · rw [hm] at hi; rw [hrev, hm]; exact h.revLt i hi
  · rw [hm] at hi; rw [hrev, hrev, h.revInvol i hi]
  · rw [hm] at hi; rw [hrev]; exact h.revNe i hi
  · rw [hm] at hi; rw [hrev, hsrc, hdst, h.revSrc i hi]
  · rw [hm] at hi; rw [hrev, hdst, hsrc, h.revDst i hi]
  · rw [hm] at hi; rw [hrev, hflag, hflag, h.revFlag i hi]
  · rw [hm] at hi; intro hf; rw [hcap]; rw [hflag] at hf; exact h.revCap0 i hi hf
  · rw [hm] at hi; rw [hsrc, hn]; exact h.srcLt i hi
  · rw [hm] at hi; rw [hdst, hn]; exact h.dstLt i hi

theorem adjWF_of_structEq {g g' : PRGraph} (hs : StructEq g g')
    (h : adjWF g) : adjWF g' := by
  obtain ⟨hn, hm, hsrc, _, _, _, _, hadj⟩ := hs
  intro u hu
  rw [hn] at hu
  rw [hadj]
  refine ⟨fun e he => ?_, (h u hu).2⟩
  obtain ⟨h1, h2⟩ := (h u hu).1 e he
  rw [hm, hsrc]; exact ⟨h1, h2⟩

theorem capsNonneg_of_structEq {g g' : PRGraph} (hs : StructEq g g')
    (h : capsNonneg g) : capsNonneg g' := by
  intro i hi
  rw [hs.2.1] at hi
  rw [hs.2.2.2.2.1]
  exact h i hi

/-! ## Concrete input graphs used for evaluations -/

/-- Input `n = 3, s = 0, t = 2` with the single triple `(0, 1, 0)`: a
zero-capacity edge out of the source.  `initPreflow` enqueues node `1` with
zero excess; node `1` then has no residual out-edge at all. -/
def deadEndG : PRGraph := (buildGraph (newGraph 3) [(0, 1, 0)]).getD (newGraph 0)

/-- Input `n = 4, s = 0, t = 3` with triples `(0, 1, 0)` and `(2, 1, 9)`.
Node `1` is processed with no residual out-edge while edge `(2, 1)` keeps
positive residual capacity into it. -/
def overflowG : PRGraph :=
  (buildGraph (newGraph 4) [(0, 1, 0), (2, 1, 9)]).getD (newGraph 0)

/-- Input `n = 3, s = 0, t = 2` with triples `(0, 1, 5)` and `(1, 2, 5)`:
a path from source to sink through one interior node. -/
def pathG : PRGraph :=
  (buildGraph (newGraph 3) [(0, 1, 5), (1, 2, 5)]).getD (newGraph 0)

/-- Input `n = 2, s = 0, t = 1` with the single triple `(0, 1, 5)`. -/
def singleEdgeG : PRGraph :=
  (buildGraph (newGraph 2) [(0, 1, 5)]).getD (newGraph 0)

/-- The final graph of solving `singleEdgeG` (the queue drains in two
iterations). -/
def singleEdgeFinalG : PRGraph := (maxFlow 3 singleEdgeG 0 1).getD (newGraph 0)

/-- Input `n = 3, s = 0` with a self-loop `(0, 0, 3)` at the source and two
parallel edges `(0, 1, 5)` and `(0, 1, 7)`. -/
def parallelG : PRGraph :=
  (buildGraph (newGraph 3) [(0, 0, 3), (0, 1, 5), (0, 1, 7)]).getD (newGraph 0)

/-- Input `n = 2` with a single negative-capacity triple `(0, 1, -1)`. -/
def negCapG : PRGraph :=
  (buildGraph (newGraph 2) [(0, 1, -1)]).getD (newGraph 0)

/-! ## C10: relabel is a frame for everything but the height of `u` -/

/-- C10: for every node `u` and every state, `relabel(G, u, Q)` modifies only
`u`'s height: every edge (hence every flow and capacity), the node and edge
counts, the stored answer, every node's excess, adjacency list and scan
cursor, and every other node's record are left unchanged, and the queue
argument is returned untouched (it is never used). -/
theorem relabel_frame (g : PRGraph) (u : Nat) (q : List Nat) :
    (relabel g u q).2 = q ∧
    (relabel g u q).1.edges = g.edges ∧
    (relabel g u q).1.nNodes = g.nNodes ∧
    (relabel g u q).1.nEdges = g.nEdges ∧
    (relabel g u q).1.maxFlow = g.maxFlow ∧
    (∀ w, ((relabel g u q).1.nodes w).excess = (g.nodes w).excess) ∧
    (∀ w, ((relabel g u q).1.nodes w).adj = (g.nodes w).adj) ∧
    (∀ w, ((relabel g u q).1.nodes w).adjIdx = (g.nodes w).adjIdx) ∧
    (∀ w, w ≠ u → (relabel g u q).1.nodes w = g.nodes w) := by
  unfold relabel
  refine ⟨rfl, rfl, rfl, rfl, rfl, ?_, ?_, ?_, ?_⟩
  · intro w; exact setHeight_excess g u _ w
  · intro w; exact setHeight_adj g u _ w
  · intro w; exact setHeight_adjIdx g u _ w
  · intro w hw
    show Function.update g.nodes u _ w = g.nodes w
    exact Function.update_noteq hw _ _

/-- Witness for C10 at a concrete state: relabelling node `1` of `pathG`
with queue `[7]` returns the queue unchanged and leaves node `0`'s record
intact. -/
theorem relabel_frame_witness :
    (relabel pathG 1 [7]).2 = [7] ∧ (relabel pathG 1 [7]).1.nodes 0 = pathG.nodes 0 :=
  ⟨(relabel_frame pathG 1 [7]).1,
    (relabel_frame pathG 1 [7]).2.2.2.2.2.2.2.2 0 (by decide)⟩

/-! ## C7: relabel of a node with no residual out-edge -/

/-- C7 (code bug): on input `deadEndG` (`n = 3, s = 0, t = 2`, single triple
`(0, 1, 0)`), the first discharge iteration processes node `1`, whose every
out-edge has residual capacity `≤ 0`; `relabel` then computes
`min + 1 = INF + 1 = INT_MAX + 1`.  That store overflows the `int` height
(undefined behaviour; two's-complement wraparound gives `INT_MIN = -2^31`).
The resulting height is strictly *smaller* than every other node's height,
not an unreachable height strictly greater than any attainable one as the
claim states. -/
theorem deadend_relabel_overflows :
    (initPreflow deadEndG 0 []).2 = [1] ∧
    (∀ e ∈ ((initPreflow deadEndG 0 []).1.nodes 1).adj,
      ¬ 0 < residualCap (initPreflow deadEndG 0 []).1 e) ∧
    ((runLoop 0 2 1 (initPreflow deadEndG 0 [])).1.nodes 1).height = -(2 ^ 31) ∧
    (∀ w < 3, w ≠ 1 →
      ((runLoop 0 2 1 (initPreflow deadEndG 0 [])).1.nodes 1).height <
        ((runLoop 0 2 1 (initPreflow deadEndG 0 [])).1.nodes w).height) := by
  refine ⟨by decide, by decide, by decide, by decide⟩

/-! ## C1: height validity across push and relabel steps -/

/-- C1 (code bug): on input `overflowG` (`n = 4, s = 0, t = 3`, triples
`(0, 1, 0)` and `(2, 1, 9)`), height validity holds after `initPreflow`,
the first discharge iteration's `push` on node `1` fails (so the iteration
relabels), and after that relabel step height validity is violated: the
overflowed height of node `1` (`INT_MAX + 1`, wrapping to `-2^31`) makes
edge `(2, 1)` — residual capacity `9 > 0` — satisfy
`height(2) = 0 > height(1) + 1`.  The claim that every edge with positive
residual capacity satisfies `height(u) ≤ height(v) + 1` after every push
and relabel step therefore fails on the code. -/
theorem heightValidity_broken_by_overflow_relabel :
    heightValid (initPreflow overflowG 0 []).1 ∧
    (initPreflow overflowG 0 []).2 = [1] ∧
    (push (initPreflow overflowG 0 []).1 1 []).2.2 = false ∧
    ¬ heightValid (runLoop 0 3 1 (initPreflow overflowG 0 [])).1 := by
  refine ⟨by decide, by decide, by decide, by decide⟩

/-! ## Counterexamples for C5, C6, C8, C9 -/

/-- C5 counterexample: on input `singleEdgeG` (`n = 2, s = 0, t = 1`, one
triple `(0, 1, 5)`) solving completes (the queue drains), yet the synthetic
reverse twin (edge `1`) ends with flow `-5 < 0`, refuting
`0 ≤ flow ≤ capacity` for all edges including the twins. -/
theorem capacity_claim_fails_on_twin :
    (maxFlow 3 singleEdgeG 0 1).isSome = true ∧
    (singleEdgeFinalG.edges 1).isRev = true ∧
    (singleEdgeFinalG.edges 1).flow = -5 ∧
    ¬ (∀ i < singleEdgeFinalG.nEdges, 0 ≤ (singleEdgeFinalG.edges i).flow) := by
  refine ⟨by decide, by decide, by decide, by decide⟩

/-- C6 counterexample: on input `pathG` (`n = 3, s = 0, t = 2`), the second
discharge iteration reaches node `1` holding excess `5`; `push` succeeds on
edge `(1, 2)` pushing `delta = 5` into the sink `2`, whose excess
transitions from `0` to `5 = delta`, and the code enqueues the sink: the
queue afterwards is `[2]`.  This refutes the claim that a successful push
enqueues its destination only when it is neither the source nor the sink. -/
theorem push_enqueues_sink :
    (runLoop 0 2 1 (initPreflow pathG 0 [])).2 = [1] ∧
    ((runLoop 0 2 1 (initPreflow pathG 0 [])).1.nodes 2).excess = 0 ∧
    (push (runLoop 0 2 1 (initPreflow pathG 0 [])).1 1 []).2.2 = true ∧
    (push (runLoop 0 2 1 (initPreflow pathG 0 [])).1 1 []).2.1 = [2] ∧
    (runLoop 0 2 2 (initPreflow pathG 0 [])).2 = [2] := by
  refine ⟨by decide, by decide, by decide, by decide, by decide⟩

/-- C8 counterexample: on input `parallelG` (`s = 0`, a self-loop
`(0, 0, 3)` and parallel edges `(0, 1, 5)`, `(0, 1, 7)`), `initPreflow`
enqueues destination `1` twice (once per edge) — and the source itself
twice via the self-loop pair — refuting "enqueue each such destination
exactly once"; moreover the self-loop is not saturated: its final flow is
`0` while its capacity is `3`, because the twin's saturation overwrites
it. -/
theorem initPreflow_enqueues_per_edge_cex :
    (initPreflow parallelG 0 []).2 = [0, 0, 1, 1] ∧
    (parallelG.edges 0).cap = 3 ∧
    ((initPreflow parallelG 0 []).1.edges 0).flow = 0 := by
  refine ⟨by decide, by decide, by decide⟩

/-- C9 counterexample: the triple `(0, 1, -1)` with a negative capacity is
accepted by `buildGraph` (no construction-time failure), and the engine
observes the malformed capacity: `initPreflow` copies it into the edge's
flow and into node `1`'s excess, which becomes `-1`. -/
theorem buildGraph_accepts_negative_cap :
    (buildGraph (newGraph 2) [(0, 1, -1)]).isSome = true ∧
    (negCapG.edges 0).cap = -1 ∧
    ((initPreflow negCapG 0 []).1.edges 0).flow = -1 ∧
    ((initPreflow negCapG 0 []).1.nodes 1).excess = -1 := by
  refine ⟨by decide, by decide, by decide, by decide⟩

/-! ## Effect of a single push action -/

/-- The amount `delta = min(excess(u), cap - flow)` moved by a push on edge
`eId` out of node `u`. -/
def pushDelta (g : PRGraph) (uId eId : Nat) : ℚ :=
  min ((g.nodes uId).excess) ((g.edges eId).cap - (g.edges eId).flow)

theorem doPush_height (g : PRGraph) (uId eId : Nat) (q : List Nat) (w : Nat) :
    (((doPush g uId eId q).1.nodes w)).height = (g.nodes w).height := by
  unfold doPush
  simp

theorem doPush_adjIdx (g : PRGraph) (uId eId : Nat) (q : List Nat) (w : Nat) :
    (((doPush g uId eId q).1.nodes w)).adjIdx = (g.nodes w).adjIdx := by
  unfold doPush
  simp

theorem doPush_excess_dst (g : PRGraph) (uId eId : Nat) (q : List Nat)
    (hvu : (g.edges eId).dst ≠ uId) :
    (((doPush g uId eId q).1.nodes ((g.edges eId).dst))).excess =
      (g.nodes ((g.edges eId).dst)).excess + pushDelta g uId eId := by
  unfold doPush pushDelta
  rw [addExcess_excess]
  rw [if_pos rfl, addExcess_excess, if_neg hvu]
  simp

theorem doPush_excess_src (g : PRGraph) (uId eId : Nat) (q : List Nat)
    (hvu : (g.edges eId).dst ≠ uId) :
    (((doPush g uId eId q).1.nodes uId)).excess =
      (g.nodes uId).excess - pushDelta g uId eId := by
  unfold doPush pushDelta
  rw [addExcess_excess, if_neg (Ne.symm hvu), addExcess_excess, if_pos rfl]
  simp [sub_eq_add_neg]

theorem doPush_excess_other (g : PRGraph) (uId eId : Nat) (q : List Nat)
    (w : Nat) (hwu : w ≠ uId) (hwv : w ≠ (g.edges eId).dst) :
    (((doPush g uId eId q).1.nodes w)).excess = (g.nodes w).excess := by
  unfold doPush
  rw [addExcess_excess, if_neg hwv, addExcess_excess, if_neg hwu]
  simp

theorem doPush_queue (g : PRGraph) (uId eId : Nat) (q : List Nat)
    (hvu : (g.edges eId).dst ≠ uId) :
    (doPush g uId eId q).2 =
      (if (g.nodes ((g.edges eId).dst)).excess = 0
        then q ++ [(g.edges eId).dst] else q) := by
  unfold doPush
  dsimp only
  rw [addExcess_excess, if_pos rfl, addExcess_excess, if_neg hvu]
  simp only [setFlow_nodes]
  refine if_congr ?_ rfl rfl
  exact add_left_eq_self

theorem doPush_flow_e (g : PRGraph) (uId eId : Nat) (q : List Nat)
    (hre : (g.edges eId).rev ≠ eId) :
    (((doPush g uId eId q).1.edges eId)).flow =
      (g.edges eId).flow + pushDelta g uId eId := by
  unfold doPush pushDelta
  simp only [addExcess_edges]
  rw [setFlow_flow_ne _ _ _ (Ne.symm hre), setFlow_flow_same]

theorem doPush_flow_rev (g : PRGraph) (uId eId : Nat) (q : List Nat)
    (hre : (g.edges eId).rev ≠ eId) :
    (((doPush g uId eId q).1.edges ((g.edges eId).rev))).flow =
      (g.edges ((g.edges eId).rev)).flow - pushDelta g uId eId := by
  unfold doPush pushDelta
  simp only [addExcess_edges]
  rw [setFlow_flow_same, setFlow_flow_ne _ _ _ hre]

theorem doPush_flow_other (g : PRGraph) (uId eId : Nat) (q : List Nat)
    (j : Nat) (hj : j ≠ eId) (hjr : j ≠ (g.edges eId).rev) :
    (((doPush g uId eId q).1.edges j)).flow = (g.edges j).flow := by
  unfold doPush
  simp only [addExcess_edges]
  rw [setFlow_flow_ne _ _ _ hjr, setFlow_flow_ne _ _ _ hj]

/-! ## C6 (amended): the enqueue condition of push -/

theorem pushLoop_queue_spec (u : Nat) (l : List (Nat × Nat)) :
    ∀ (g : PRGraph) (q : List Nat),
      ((pushLoop u l g q).2.2 = false ∧ (pushLoop u l g q).2.1 = q) ∨
      ∃ p ∈ l, 0 < residualCap g p.2 ∧
        (g.nodes u).height = (g.nodes (g.edges p.2).dst).height + 1 ∧
        (g.edges p.2).dst ≠ u ∧
        (pushLoop u l g q).2.2 = true ∧
        (pushLoop u l g q).2.1 =
          (if (g.nodes (g.edges p.2).dst).excess = 0
            then q ++ [(g.edges p.2).dst] else q) := by
  induction l with
  | nil => intro g q; exact Or.inl ⟨rfl, rfl⟩
  | cons p rest ih =>
    intro g q
    obtain ⟨i, eId⟩ := p
    rw [pushLoop]
    split
    · rename_i hadm
      simp only [setAdjIdx_edges, setAdjIdx_height] at hadm
      obtain ⟨hres, hht⟩ := hadm
      have hvu : (g.edges eId).dst ≠ u := by
        intro he
        rw [he] at hht
        omega
      refine Or.inr ⟨(i, eId), List.mem_cons_self _ _, hres, hht, hvu, rfl, ?_⟩
      dsimp only
      have hq := doPush_queue (setAdjIdx g u i) u eId q
      simp only [setAdjIdx_edges, setAdjIdx_excess] at hq
      exact hq hvu
    · rcases ih (setAdjIdx g u i) q with hfail | ⟨p, hp, hres, hht, hvu, hb, hq⟩
      · exact Or.inl hfail
      · refine Or.inr ⟨p, List.mem_cons_of_mem _ hp, ?_, ?_, ?_, hb, ?_⟩
        · have : residualCap (setAdjIdx g u i) p.2 = residualCap g p.2 := by
            unfold residualCap; simp
          rwa [this] at hres
        · simpa using hht
        · simpa using hvu
        · simpa using hq

/-- C6 (amended): for every state, node `u` and queue, either `push` fails
and leaves the queue unchanged, or it succeeds on some adjacency edge `eId`
of `u` that is admissible (positive residual capacity and
`height(u) = height(dst) + 1`), and it appends the destination to the queue
exactly when the destination's pre-push excess was zero — equivalently,
when the pushed `delta` (which may itself be zero) equals the destination's
post-push excess.  No source/sink test is involved: the destination is
enqueued even when it is the source or the sink (those are discarded at
dequeue time by the discharge loop). -/
theorem push_enqueue_spec (g : PRGraph) (u : Nat) (q : List Nat) :
    ((push g u q).2.2 = false ∧ (push g u q).2.1 = q) ∨
    ∃ eId ∈ (g.nodes u).adj, 0 < residualCap g eId ∧
      (g.nodes u).height = (g.nodes (g.edges eId).dst).height + 1 ∧
      (g.edges eId).dst ≠ u ∧
      (push g u q).2.2 = true ∧
      (push g u q).2.1 =
        (if (g.nodes (g.edges eId).dst).excess = 0
          then q ++ [(g.edges eId).dst] else q) := by
  rcases pushLoop_queue_spec u (((g.nodes u).adj.enum).drop (g.nodes u).adjIdx)
      g q with hfail | ⟨p, hp, hres, hht, hvu, hb, hq⟩
  · exact Or.inl hfail
  · refine Or.inr ⟨p.2, ?_, hres, hht, hvu, hb, hq⟩
    have hmem : p ∈ (g.nodes u).adj.enum := List.drop_subset _ _ hp
    have := List.mem_enum_iff_getElem?.mp hmem
    exact List.getElem?_mem this

/-! ## Inversion of the construction functions -/

/-- All flows are zero (the state of a freshly built graph). -/
def flows0 (g : PRGraph) : Prop := ∀ i, (g.edges i).flow = 0

/-- All node scalars are zero (the state of a freshly built graph). -/
def nodes0 (g : PRGraph) : Prop :=
  ∀ w, (g.nodes w).height = 0 ∧ (g.nodes w).excess = 0 ∧
    (g.nodes w).adjIdx = 0

theorem addEdge_inv {g g' : PRGraph} {u v : Nat} {c : ℚ} {b : Bool}
    (h : addEdge g u v c b = some g') :
    u < g.nNodes ∧ g'.nNodes = g.nNodes ∧ g'.nEdges = g.nEdges + 1 ∧
    g'.edges = Function.update g.edges g.nEdges ⟨u, v, c, 0, b, 0⟩ ∧
    g'.nodes = Function.update g.nodes u
      { g.nodes u with adj := (g.nodes u).adj ++ [g.nEdges] } ∧
    g'.maxFlow = g.maxFlow := by
  unfold addEdge at h
  by_cases hu : u < g.nNodes
  · rw [if_pos hu] at h
    obtain rfl := (Option.some_inj.mp h).symm
    refine ⟨hu, rfl, rfl, rfl, ?_, rfl⟩
    rfl
  · rw [if_neg hu] at h
    exact absurd h (by simp)

@[simp] theorem setRevIdx_nNodes (g : PRGraph) (i r : Nat) :
    (setRevIdx g i r).nNodes = g.nNodes := rfl

@[simp] theorem setRevIdx_nEdges (g : PRGraph) (i r : Nat) :
    (setRevIdx g i r).nEdges = g.nEdges := rfl

@[simp] theorem setRevIdx_nodes (g : PRGraph) (i r : Nat) :
    (setRevIdx g i r).nodes = g.nodes := rfl

theorem setRevIdx_edges (g : PRGraph) (i r : Nat) (j : Nat) :
    (setRevIdx g i r).edges j =
      if j = i then { g.edges i with rev := r } else g.edges j := by
  unfold setRevIdx
  rcases eq_or_ne j i with h | h
  · subst h; simp
  · simp [Function.update_noteq h, h]

theorem addEdgePair_inv {g g' : PRGraph} {u v : Nat} {c : ℚ}
    (h : addEdgePair g u v c = some g') :
    u < g.nNodes ∧ v < g.nNodes ∧ g'.nNodes = g.nNodes ∧
    g'.nEdges = g.nEdges + 2 ∧
    (∀ i, i ≠ g.nEdges → i ≠ g.nEdges + 1 → g'.edges i = g.edges i) ∧
    g'.edges g.nEdges = ⟨u, v, c, 0, false, g.nEdges + 1⟩ ∧
    g'.edges (g.nEdges + 1) = ⟨v, u, 0, 0, true, g.nEdges⟩ ∧
    (∀ w, (g'.nodes w).adj =
      ((g.nodes w).adj ++ (if w = u then [g.nEdges] else [])) ++
        (if w = v then [g.nEdges + 1] else [])) ∧
    (∀ w, (g'.nodes w).height = (g.nodes w).height ∧
      (g'.nodes w).excess = (g.nodes w).excess ∧
      (g'.nodes w).adjIdx = (g.nodes w).adjIdx) := by
  unfold addEdgePair at h
  rcases h1 : addEdge g u v c false with _ | g1
  · rw [h1] at h; exact absurd h (by simp)
  rw [h1] at h
  dsimp only at h
  rcases h2 : addEdge g1 v u 0 true with _ | g2
  · rw [h2] at h; exact absurd h (by simp)
  rw [h2] at h
  dsimp only at h
  obtain ⟨hu, hn1, hm1, he1, hv1, _⟩ := addEdge_inv h1
  obtain ⟨hv, hn2, hm2, he2, hv2, _⟩ := addEdge_inv h2
  rw [hn1] at hv
  obtain rfl := (Option.some_inj.mp h).symm
  have hm2' : g2.nEdges = g.nEdges + 2 := by rw [hm2, hm1]
  have hedge : ∀ j, g2.edges j =
      if j = g.nEdges + 1 then (⟨v, u, 0, 0, true, 0⟩ : Edge)
      else if j = g.nEdges then (⟨u, v, c, 0, false, 0⟩ : Edge)
      else g.edges j := by
    intro j
    rw [he2, hm1, he1]
    rcases eq_or_ne j (g.nEdges + 1) with hj | hj
    · subst hj; simp
    · rw [Function.update_noteq hj, if_neg hj]
      rcases eq_or_ne j g.nEdges with hj2 | hj2
      · subst hj2; simp
      · rw [Function.update_noteq hj2, if_neg hj2]
  refine ⟨hu, hv, by simp [hn2, hn1], by simp [hm2'], ?_, ?_, ?_, ?_, ?_⟩
  · intro i hi hi1
    have e1 : g.nEdges + 2 - 1 = g.nEdges + 1 := by omega
    have e2 : g.nEdges + 2 - 2 = g.nEdges := by omega
    simp [setRevIdx_edges, hm2', e1, e2, hedge, hi, hi1]
  · have e1 : g.nEdges + 2 - 1 = g.nEdges + 1 := by omega
    have e2 : g.nEdges + 2 - 2 = g.nEdges := by omega
    have hne : g.nEdges ≠ g.nEdges + 1 := by omega
    simp [setRevIdx_edges, hm2', e1, e2, hedge, hne]
  · have e1 : g.nEdges + 2 - 1 = g.nEdges + 1 := by omega
    have e2 : g.nEdges + 2 - 2 = g.nEdges := by omega
    simp [setRevIdx_edges, hm2', e1, e2, hedge]
  · intro w
    simp only [setRevIdx_nodes]
    rw [hv2, hv1]
    rcases eq_or_ne w u with hwu | hwu
    · rcases eq_or_ne w v with hwv | hwv
      · have huv : u = v := by omega
        subst hwu
        subst huv
        simp [Function.update_apply, hm1, List.append_assoc]
      · subst hwu
        have hvu : v ≠ w := Ne.symm hwv
        simp [Function.update_apply, hvu, hwv, hm1]
    · rcases eq_or_ne w v with hwv | hwv
      · subst hwv
        simp [Function.update_apply, hwu, hm1]
      · simp [Function.update_apply, hwu, hwv]
  · intro w
    simp only [setRevIdx_nodes]
    rw [hv2, hv1]
    rcases eq_or_ne w u with hwu | hwu
    · rcases eq_or_ne w v with hwv | hwv
      · have huv : u = v := by omega
        subst hwu
        subst huv
        simp [Function.update_apply]
      · subst hwu
        have hvu : v ≠ w := Ne.symm hwv
        simp [Function.update_apply, hvu, hwv]
    · rcases eq_or_ne w v with hwv | hwv
      · subst hwv
        simp [Function.update_apply, hwu]
      · simp [Function.update_apply, hwu, hwv]

theorem addEdgePair_preserves {g g' : PRGraph} {u v : Nat} {c : ℚ}
    (h : addEdgePair g u v c = some g')
    (hE : EdgesWF g) (hA : adjWF g) (hF : flows0 g) (hN : nodes0 g) :
    EdgesWF g' ∧ adjWF g' ∧ flows0 g' ∧ nodes0 g' ∧ g'.nNodes = g.nNodes ∧
      (capsNonneg g → 0 ≤ c → capsNonneg g') := by
  obtain ⟨hu, hv, hn, hm, hold, hk, hk1, hadj, hfields⟩ := addEdgePair_inv h
  have hrevk : (g'.edges g.nEdges).rev = g.nEdges + 1 := by rw [hk]
  have hrevk1 : (g'.edges (g.nEdges + 1)).rev = g.nEdges := by rw [hk1]
  have edgeCases : ∀ i < g'.nEdges,
      i < g.nEdges ∨ i = g.nEdges ∨ i = g.nEdges + 1 := by
    intro i hi; rw [hm] at hi; omega
  refine ⟨?_, ?_, ?_, ?_, hn, ?_⟩
  · refine ⟨?_, ?_, ?_, ?_, ?_, ?_, ?_, ?_, ?_⟩ <;> intro i hi
    · rcases edgeCases i hi with h1 | h1 | h1
      · rw [hold i (by omega) (by omega), hm]
        have := hE.revLt i h1
        omega
      · subst h1; rw [hrevk, hm]; omega
      · subst h1; rw [hrevk1, hm]; omega
    · rcases edgeCases i hi with h1 | h1 | h1
      · have hr := hE.revLt i h1
        rw [hold i (by omega) (by omega),
          hold ((g.edges i).rev) (by omega) (by omega)]
        exact hE.revInvol i h1
      · subst h1; rw [hrevk, hk1]
      · subst h1; rw [hrevk1, hk]
    · rcases edgeCases i hi with h1 | h1 | h1
      · rw [hold i (by omega) (by omega)]
        exact hE.revNe i h1
      · subst h1; rw [hrevk]; omega
      · subst h1; rw [hrevk1]; omega
    · rcases edgeCases i hi with h1 | h1 | h1
      · have hr := hE.revLt i h1
        rw [hold i (by omega) (by omega),
          hold ((g.edges i).rev) (by omega) (by omega)]
        exact hE.revSrc i h1
      · subst h1; rw [hrevk, hk1, hk]
      · subst h1; rw [hrevk1, hk, hk1]
    · rcases edgeCases i hi with h1 | h1 | h1
      · have hr := hE.revLt i h1
        rw [hold i (by omega) (by omega),
          hold ((g.edges i).rev) (by omega) (by omega)]
        exact hE.revDst i h1
      · subst h1; rw [hrevk, hk1, hk]
      · subst h1; rw [hrevk1, hk, hk1]
    · rcases edgeCases i hi with h1 | h1 | h1
      · have hr := hE.revLt i h1
        rw [hold i (by omega) (by omega),
          hold ((g.edges i).rev) (by omega) (by omega)]
        exact hE.revFlag i h1
      · subst h1; rw [hrevk, hk1, hk]; rfl
      · subst h1; rw [hrevk1, hk, hk1]; rfl
    · rcases edgeCases i hi with h1 | h1 | h1
      · rw [hold i (by omega) (by omega)]
        exact hE.revCap0 i h1
      · subst h1; rw [hk]; intro hfalse; cases hfalse
      · subst h1; rw [hk1]; intro _; rfl
    · rcases edgeCases i hi with h1 | h1 | h1
      · rw [hold i (by omega) (by omega), hn]
        exact hE.srcLt i h1
      · subst h1; rw [hk, hn]; exact hu
      · subst h1; rw [hk1, hn]; exact hv
    · rcases edgeCases i hi with h1 | h1 | h1
      · rw [hold i (by omega) (by omega), hn]
        exact hE.dstLt i h1
      · subst h1; rw [hk, hn]; exact hv
      · subst h1; rw [hk1, hn]; exact hu
  · intro w hw
    rw [hn] at hw
    obtain ⟨hmem, hnd⟩ := hA w hw
    rw [hadj w]
    have hbound : ∀ e ∈ (g.nodes w).adj, e < g.nEdges := fun e he => (hmem e he).1
    constructor
    · intro e he
      rcases List.mem_append.mp he with he2 | he2
      · rcases List.mem_append.mp he2 with he3 | he3
        · obtain ⟨hlt, hsrc⟩ := hmem e he3
          rw [hold e (by omega) (by omega), hm]
          exact ⟨by omega, hsrc⟩
        · rcases (List.mem_ite_nil_right).mp he3 with ⟨hwu, he4⟩
          rw [List.mem_singleton] at he4
          subst he4
          rw [hk, hm]
          exact ⟨by omega, hwu.symm⟩
      · rcases (List.mem_ite_nil_right).mp he2 with ⟨hwv, he4⟩
        rw [List.mem_singleton] at he4
        subst he4
        rw [hk1, hm]
        exact ⟨by omega, hwv.symm⟩
    · refine List.Nodup.append (List.Nodup.append hnd ?_ ?_) ?_ ?_
      · split <;> simp
      · intro a ha hb
        rcases (List.mem_ite_nil_right).mp hb with ⟨_, hb2⟩
        rw [List.mem_singleton] at hb2
        subst hb2
        exact absurd (hbound _ ha) (by omega)
      · split <;> simp
      · intro a ha hb
        rcases (List.mem_ite_nil_right).mp hb with ⟨_, hb2⟩
        rw [List.mem_singleton] at hb2
        subst hb2
        rcases List.mem_append.mp ha with ha2 | ha2
        · exact absurd (hbound _ ha2) (by omega)
        · rcases (List.mem_ite_nil_right).mp ha2 with ⟨_, ha3⟩
          rw [List.mem_singleton] at ha3
          omega
  · intro i
    rcases eq_or_ne i g.nEdges with h1 | h1
    · subst h1; rw [hk]
    · rcases eq_or_ne i (g.nEdges + 1) with h2 | h2
      · subst h2; rw [hk1]
      · rw [hold i h1 h2]; exact hF i
  · intro w
    obtain ⟨hh, he, ha⟩ := hfields w
    obtain ⟨hh2, he2, ha2⟩ := hN w
    exact ⟨hh.trans hh2, he.trans he2, ha.trans ha2⟩
  · intro hc hcnew i hi
    rcases edgeCases i hi with h1 | h1 | h1
    · rw [hold i (by omega) (by omega)]
      exact hc i h1
    · subst h1; rw [hk]; exact hcnew
    · subst h1; rw [hk1]

theorem buildGraph_ok :
    ∀ (tr : List (Nat × Nat × ℚ)) (g g' : PRGraph),
      buildGraph g tr = some g' →
      EdgesWF g → adjWF g → flows0 g → nodes0 g →
      EdgesWF g' ∧ adjWF g' ∧ flows0 g' ∧ nodes0 g' ∧ g'.nNodes = g.nNodes ∧
        (capsNonneg g → (∀ p ∈ tr, 0 ≤ p.2.2) → capsNonneg g') := by
  intro tr
  induction tr with
  | nil =>
    intro g g' h hE hA hF hN
    rw [buildGraph] at h
    obtain rfl := Option.some_inj.mp h
    exact ⟨hE, hA, hF, hN, rfl, fun hc _ => hc⟩
  | cons p rest ih =>
    intro g g' h hE hA hF hN
    obtain ⟨u, v, c⟩ := p
    rw [buildGraph] at h
    rcases h1 : addEdgePair g u v c with _ | g1
    · rw [h1] at h; exact absurd h (by simp)
    rw [h1] at h
    dsimp only at h
    obtain ⟨hE1, hA1, hF1, hN1, hn1, hc1⟩ :=
      addEdgePair_preserves h1 hE hA hF hN
    obtain ⟨hE2, hA2, hF2, hN2, hn2, hc2⟩ := ih g1 g' h hE1 hA1 hF1 hN1
    refine ⟨hE2, hA2, hF2, hN2, hn2.trans hn1, fun hc htr => ?_⟩
    refine hc2 (hc1 hc (htr (u, v, c) (List.mem_cons_self _ _))) ?_
    intro q hq
    exact htr q (List.mem_cons_of_mem _ hq)

/-- The invariants of a graph freshly built from the input triples. -/
theorem buildGraph_newGraph_ok {n : Nat} {tr : List (Nat × Nat × ℚ)}
    {g : PRGraph} (h : buildGraph (newGraph n) tr = some g) :
    EdgesWF g ∧ adjWF g ∧ flows0 g ∧ nodes0 g ∧ g.nNodes = n ∧
      ((∀ p ∈ tr, 0 ≤ p.2.2) → capsNonneg g) := by
  have hE : EdgesWF (newGraph n) := by
    refine ⟨?_, ?_, ?_, ?_, ?_, ?_, ?_, ?_, ?_⟩ <;> intro i hi <;>
      exact absurd hi (by simp [newGraph])
  have hA : adjWF (newGraph n) := by
    intro u hu
    refine ⟨fun e he => absurd he (by simp [newGraph, newNode]), ?_⟩
    simp [newGraph, newNode]
  have hF : flows0 (newGraph n) := fun i => rfl
  have hN : nodes0 (newGraph n) := fun w => ⟨rfl, rfl, rfl⟩
  have hC : capsNonneg (newGraph n) := fun i _ => le_refl 0
  obtain ⟨hE2, hA2, hF2, hN2, hn2, hc2⟩ := buildGraph_ok tr _ _ h hE hA hF hN
  exact ⟨hE2, hA2, hF2, hN2, hn2, fun htr => hc2 hC htr⟩

/-! ## C8 (amended): what initPreflow does -/

theorem initFold_spec (s : Nat) :
    ∀ (l : List Nat) (g1 : PRGraph) (q1 : List Nat),
      EdgesWF g1 →
      (∀ e ∈ l, e < g1.nEdges ∧ (g1.edges e).src = s ∧ (g1.edges e).dst ≠ s) →
      l.Nodup →
      (l.foldl initStep (g1, q1)).2 =
          q1 ++ l.map (fun e => (g1.edges e).dst) ∧
      (∀ e ∈ l,
        ((l.foldl initStep (g1, q1)).1.edges e).flow = (g1.edges e).cap ∧
        ((l.foldl initStep (g1, q1)).1.edges ((g1.edges e).rev)).flow =
          -(g1.edges e).cap) ∧
      (∀ j, (∀ e ∈ l, j ≠ e ∧ j ≠ (g1.edges e).rev) →
        ((l.foldl initStep (g1, q1)).1.edges j).flow = (g1.edges j).flow) ∧
      (∀ w, (((l.foldl initStep (g1, q1)).1.nodes w)).height =
          (g1.nodes w).height) ∧
      (∀ w, (((l.foldl initStep (g1, q1)).1.nodes w)).excess =
        (g1.nodes w).excess +
          ((l.filter (fun e => (g1.edges e).dst = w)).map
            (fun e => (g1.edges e).cap)).sum) := by
  intro l
  induction l with
  | nil =>
    intro g1 q1 hE hP hND
    refine ⟨by simp, by simp, fun j _ => rfl, fun w => rfl, fun w => by simp⟩
  | cons e0 l' ih =>
    intro g1 q1 hE hP hND
    obtain ⟨he0lt, he0src, he0dst⟩ := hP e0 (List.mem_cons_self _ _)
    have hrevne : (g1.edges e0).rev ≠ e0 := hE.revNe e0 he0lt
    have hrevlt : (g1.edges e0).rev < g1.nEdges := hE.revLt e0 he0lt
    have hrevsrc : (g1.edges ((g1.edges e0).rev)).src = (g1.edges e0).dst :=
      hE.revSrc e0 he0lt
    -- the state after processing the head entry
    have hfold : (e0 :: l').foldl initStep (g1, q1) =
        l'.foldl initStep (initStep (g1, q1) e0) := rfl
    set g3 := (initStep (g1, q1) e0).1 with hg3
    have hq3 : (initStep (g1, q1) e0).2 = q1 ++ [(g1.edges e0).dst] := rfl
    have hstep : StructEq g1 g3 := structEq_initStep (g1, q1) e0
    obtain ⟨hsn, hsm, hssrc, hsdst, hscap, hsflag, hsrev, hsadj⟩ := hstep
    have hE3 : EdgesWF g3 := edgesWF_of_structEq (structEq_initStep (g1, q1) e0) hE
    have hP3 : ∀ e ∈ l', e < g3.nEdges ∧ (g3.edges e).src = s ∧
        (g3.edges e).dst ≠ s := by
      intro e he
      obtain ⟨h1, h2, h3⟩ := hP e (List.mem_cons_of_mem _ he)
      rw [hsm, hssrc, hsdst]
      exact ⟨h1, h2, h3⟩
    have hND' : l'.Nodup := hND.of_cons
    have hne0 : e0 ∉ l' := (List.nodup_cons.mp hND).1
    obtain ⟨ihq, ihsat, ihframe, ihheight, ihexcess⟩ := ih g3
      ((initStep (g1, q1) e0).2) hE3 hP3 hND'
    -- frame facts for the head pair under the rest of the fold
    have hframe0 : ∀ e ∈ l', e0 ≠ e ∧ e0 ≠ (g3.edges e).rev := by
      intro e he
      obtain ⟨helt, hesrc, _⟩ := hP e (List.mem_cons_of_mem _ he)
      constructor
      · intro hcon; exact hne0 (hcon ▸ he)
      · intro hcon
        have hxx : (g3.edges ((g3.edges e).rev)).src = (g3.edges e).dst :=
          hE3.revSrc e (by rw [hsm]; exact helt)
        rw [← hcon] at hxx
        rw [hssrc, he0src] at hxx
        obtain ⟨_, _, hdst⟩ := hP3 e he
        exact hdst hxx.symm
    have hframeR : ∀ e ∈ l', (g1.edges e0).rev ≠ e ∧
        (g1.edges e0).rev ≠ (g3.edges e).rev := by
      intro e he
      obtain ⟨helt, hesrc, _⟩ := hP e (List.mem_cons_of_mem _ he)
      constructor
      · intro hcon
        apply he0dst
        rw [← hrevsrc, hcon, hesrc]
      · intro hcon
        have hinv3 : (g3.edges ((g3.edges e).rev)).rev = e := hE3.revInvol e
          (by rw [hsm]; exact helt)
        rw [← hcon, hsrev] at hinv3
        exact (hframe0 e he).1 ((hE.revInvol e0 he0lt).symm.trans hinv3)
    -- flow of the head pair right after its own step
    have hflow_e0 : (g3.edges e0).flow = (g1.edges e0).cap := by
      show ((initStep (g1, q1) e0).1.edges e0).flow = _
      unfold initStep
      simp only [addExcess_edges]
      rw [setFlow_flow_ne _ _ _ (Ne.symm hrevne), setFlow_flow_same]
    have hflow_rev : (g3.edges ((g1.edges e0).rev)).flow = -(g1.edges e0).cap := by
      show ((initStep (g1, q1) e0).1.edges _).flow = _
      unfold initStep
      simp only [addExcess_edges]
      rw [setFlow_flow_same]
    refine ⟨?_, ?_, ?_, ?_, ?_⟩
    · rw [hfold, ihq, hq3]
      have hmapeq : l'.map (fun e => (g3.edges e).dst) =
          l'.map (fun e => (g1.edges e).dst) :=
        List.map_congr_left fun e _ => hsdst e
      rw [hmapeq]
      simp
    · intro e he
      rcases List.mem_cons.mp he with he1 | he'
      · rw [he1]
        constructor
        · rw [hfold]
          rw [ihframe e0 hframe0, hflow_e0]
        · rw [hfold]
          rw [ihframe _ hframeR, hflow_rev]
      · obtain ⟨hs1, hs2⟩ := ihsat e he'
        constructor
        · rw [hfold, hs1, hscap]
        · rw [hfold]
          rw [← hsrev e, hs2, hscap]
    · intro j hj
      obtain ⟨hj1, hj2⟩ := hj e0 (List.mem_cons_self _ _)
      have hj' : ∀ e ∈ l', j ≠ e ∧ j ≠ (g3.edges e).rev := by
        intro e he
        obtain ⟨ha, hb⟩ := hj e (List.mem_cons_of_mem _ he)
        rw [hsrev]
        exact ⟨ha, hb⟩
      rw [hfold, ihframe j hj']
      show ((initStep (g1, q1) e0).1.edges j).flow = _
      unfold initStep
      simp only [addExcess_edges]
      rw [setFlow_flow_ne _ _ _ hj2, setFlow_flow_ne _ _ _ hj1]
    · intro w
      rw [hfold, ihheight w]
      show (((initStep (g1, q1) e0).1.nodes w)).height = _
      unfold initStep
      simp
    · intro w
      rw [hfold, ihexcess w]
      have hstep_ex : ∀ w', ((initStep (g1, q1) e0).1.nodes w').excess =
          (g1.nodes w').excess +
            (if (g1.edges e0).dst = w' then (g1.edges e0).cap else 0) := by
        intro w'
        unfold initStep
        dsimp only
        rw [addExcess_excess]
        rcases eq_or_ne w' (((setFlow (setFlow g1 e0 (g1.edges e0).cap)
            ((g1.edges e0).rev) (-(g1.edges e0).cap)).edges e0).dst) with hw | hw
        · simp only [setFlow_dst] at hw
          rw [if_pos hw]
          simp [hw]
        · simp only [setFlow_dst] at hw
          rw [if_neg hw, if_neg (by intro hcon; exact hw hcon.symm)]
          simp
      rw [← hg3] at hstep_ex
      rw [hstep_ex w]
      have hfilter : (List.filter (fun e => (g3.edges e).dst = w) l') =
          (List.filter (fun e => (g1.edges e).dst = w) l') := by
        apply List.filter_congr
        intro e _
        rw [hsdst]
      have hmap : ∀ lx : List Nat, (lx.map (fun e => (g3.edges e).cap)).sum =
          (lx.map (fun e => (g1.edges e).cap)).sum := by
        intro lx
        congr 1
        exact List.map_congr_left fun e _ => by rw [hscap]
      rw [hfilter, hmap]
      by_cases hw : (g1.edges e0).dst = w
      · simp only [List.filter_cons, hw]
        simp only [decide_True, if_true, List.map_cons, List.sum_cons]
        ring
      · simp [List.filter_cons, hw]

/-- C8 (amended): for every well-formed graph, source `s` and queue, when no
edge in `s`'s adjacency list is a self-loop, `initPreflow(s)` sets
`height(s)` to the node count, saturates every edge leaving `s` (its flow
becomes its full capacity and its twin's flow the negation), adds each
edge's capacity to its destination's excess, and enqueues the destination
once per adjacency entry — so a destination reached by several parallel
edges from `s` is enqueued once for each of them, not exactly once.  (With
a self-loop at `s` the paired saturations overwrite each other; see the
counterexample.) -/
theorem initPreflow_spec (g : PRGraph) (s : Nat) (q : List Nat)
    (hE : EdgesWF g) (hA : adjWF g) (hs : s < g.nNodes)
    (hns : ∀ e ∈ (g.nodes s).adj, (g.edges e).dst ≠ s) :
    ((initPreflow g s q).1.nodes s).height = g.nNodes ∧
    (∀ e ∈ (g.nodes s).adj,
      ((initPreflow g s q).1.edges e).flow = (g.edges e).cap ∧
      ((initPreflow g s q).1.edges ((g.edges e).rev)).flow =
        -(g.edges e).cap) ∧
    (initPreflow g s q).2 = q ++ (g.nodes s).adj.map (fun e => (g.edges e).dst) ∧
    (∀ w, ((initPreflow g s q).1.nodes w).excess = (g.nodes w).excess +
      (((g.nodes s).adj.filter (fun e => (g.edges e).dst = w)).map
        (fun e => (g.edges e).cap)).sum) := by
  have hg0 : StructEq g (setHeight g s g.nNodes) := structEq_setHeight g s _
  have hE0 : EdgesWF (setHeight g s g.nNodes) := edgesWF_of_structEq hg0 hE
  have hadj : ((setHeight g s g.nNodes).nodes s).adj = (g.nodes s).adj :=
    setHeight_adj g s _ s
  have hedges : (setHeight g s g.nNodes).edges = g.edges := rfl
  obtain ⟨hmem, hnd⟩ := hA s hs
  have hP : ∀ e ∈ (g.nodes s).adj,
      e < (setHeight g s g.nNodes).nEdges ∧
        ((setHeight g s g.nNodes).edges e).src = s ∧
        ((setHeight g s g.nNodes).edges e).dst ≠ s := by
    intro e he
    exact ⟨(hmem e he).1, (hmem e he).2, hns e he⟩
  obtain ⟨ihq, ihsat, _, ihheight, ihexcess⟩ :=
    initFold_spec s ((g.nodes s).adj) (setHeight g s g.nNodes) q hE0 hP hnd
  have hfold : initPreflow g s q =
      ((g.nodes s).adj.foldl initStep (setHeight g s g.nNodes, q)) := by
    have hdefn : initPreflow g s q =
        (((setHeight g s (g.nNodes : Int)).nodes s).adj.foldl initStep
          (setHeight g s (g.nNodes : Int), q)) := rfl
    rw [hdefn, hadj]
  refine ⟨?_, ?_, ?_, ?_⟩
  · rw [hfold, ihheight s, setHeight_height, if_pos rfl]
  · intro e he
    obtain ⟨h1, h2⟩ := ihsat e he
    rw [hfold]
    exact ⟨h1, h2⟩
  · rw [hfold, ihq, hedges]
  · intro w
    rw [hfold, ihexcess w, setHeight_excess, hedges]

/-- Witness for C8 (amended) on the concrete path graph `pathG` with
source `0`: height of the source becomes `3` and the queue receives node
`1` once (its single adjacency entry). -/
theorem initPreflow_spec_witness :
    ((initPreflow pathG 0 []).1.nodes 0).height = 3 ∧
      (initPreflow pathG 0 []).2 = [1] := by
  have hsome : buildGraph (newGraph 3) [(0, 1, 5), (1, 2, 5)] = some pathG := rfl
  obtain ⟨hE, hA, _, _, hn, _⟩ := buildGraph_newGraph_ok hsome
  obtain ⟨h1, _, h3, _⟩ := initPreflow_spec pathG 0 [] hE hA
    (by rw [hn]; omega) (by decide)
  refine ⟨?_, ?_⟩
  · rw [h1, hn]; rfl
  · rw [h3]
    decide

/-! ## C9 (amended): construction performs no validation -/

theorem addEdgePair_isSome {g : PRGraph} {u v : Nat} {c : ℚ}
    (hu : u < g.nNodes) (hv : v < g.nNodes) :
    ∃ g', addEdgePair g u v c = some g' := by
  unfold addEdgePair addEdge
  rw [if_pos hu]
  dsimp only
  have hv' : v < (pushAdj g u g.nEdges).nNodes := hv
  rw [if_pos hv']
  exact ⟨_, rfl⟩

theorem addEdgePair_none {g : PRGraph} {u v : Nat} {c : ℚ}
    (h : g.nNodes ≤ u ∨ g.nNodes ≤ v) : addEdgePair g u v c = none := by
  unfold addEdgePair addEdge
  rcases h with h | h
  · rw [if_neg (by omega)]
  · by_cases hu : u < g.nNodes
    · rw [if_pos hu]
      dsimp only
      have hv' : ¬ v < (pushAdj g u g.nEdges).nNodes := by
        show ¬ v < g.nNodes
        omega
      rw [if_neg hv']
    · rw [if_neg hu]

/-- C9 (amended): `buildGraph` applies no validation and reports no
construction-time failure.  A triple with in-range endpoints is accepted
whatever the sign of its capacity: the capacity is stored verbatim and the
engine observes it (`initPreflow` copies it into the edge's flow and adds
it to the destination's excess, so a negative capacity produces a negative
flow and a negative excess inside the engine).  An out-of-range endpoint is
not a reported failure either: `addEdge` indexes `G->nodes` out of bounds —
undefined behaviour, modelled by the construction returning `none` (the
forward edge dereferences `u`, the reverse edge dereferences `v`). -/
theorem buildGraph_no_validation :
    (∀ (n u v : Nat) (c : ℚ), u < n → v < n → u ≠ v →
      ∃ g, buildGraph (newGraph n) [(u, v, c)] = some g ∧
        (g.edges 0).cap = c ∧ (g.edges 0).src = u ∧ (g.edges 0).dst = v ∧
        ((initPreflow g u []).1.edges 0).flow = c ∧
        ((initPreflow g u []).1.nodes v).excess = c) ∧
    (∀ (n u v : Nat) (c : ℚ), n ≤ u ∨ n ≤ v →
      buildGraph (newGraph n) [(u, v, c)] = none) := by
  constructor
  · intro n u v c hu hv huv
    obtain ⟨g, hg⟩ := addEdgePair_isSome
      (show u < (newGraph n).nNodes from hu)
      (show v < (newGraph n).nNodes from hv)
    have hbuild : buildGraph (newGraph n) [(u, v, c)] = some g := by
      rw [buildGraph, hg]
      rfl
    obtain ⟨hE, hA, hF, hN, hn, _⟩ := buildGraph_newGraph_ok hbuild
    obtain ⟨_, _, _, _, _, hk, hk1, hadj, _⟩ := addEdgePair_inv hg
    have hk' : g.edges 0 = ⟨u, v, c, 0, false, 1⟩ := hk
    have hadju : (g.nodes u).adj = [0] := by
      have h0 := hadj u
      rw [if_pos rfl, if_neg huv] at h0
      simpa [newGraph, newNode] using h0
    -- run the saturation fold over the single adjacency entry of u
    have hg0 : StructEq g (setHeight g u g.nNodes) := structEq_setHeight g u _
    have hE0 : EdgesWF (setHeight g u g.nNodes) := edgesWF_of_structEq hg0 hE
    have hP : ∀ e ∈ [0], e < (setHeight g u g.nNodes).nEdges ∧
        ((setHeight g u g.nNodes).edges e).src = u ∧
        ((setHeight g u g.nNodes).edges e).dst ≠ u := by
      intro e he
      rw [List.mem_singleton] at he
      subst he
      refine ⟨?_, ?_, ?_⟩
      · have := (addEdgePair_inv hg).2.2.2.1
        simp only [setHeight_nEdges]
        omega
      · show (g.edges 0).src = u
        rw [hk']
      · show (g.edges 0).dst ≠ u
        rw [hk']
        exact Ne.symm huv
    obtain ⟨_, ihsat, _, _, ihexcess⟩ :=
      initFold_spec u [0] (setHeight g u g.nNodes) [] hE0 hP (by simp)
    have hfold : initPreflow g u [] =
        ([0].foldl initStep (setHeight g u (g.nNodes : Int), [])) := by
      have hdefn : initPreflow g u [] =
          (((setHeight g u (g.nNodes : Int)).nodes u).adj.foldl initStep
            (setHeight g u (g.nNodes : Int), [])) := rfl
      rw [hdefn, setHeight_adj, hadju]
    refine ⟨g, hbuild, by rw [hk'], by rw [hk'], by rw [hk'], ?_, ?_⟩
    · obtain ⟨h1, _⟩ := ihsat 0 (List.mem_singleton.mpr rfl)
      rw [hfold, h1]
      show (g.edges 0).cap = c
      rw [hk']
    · rw [hfold, ihexcess v]
      have hdst : ((setHeight g u (g.nNodes : Int)).edges 0).dst = v := by
        show (g.edges 0).dst = v
        rw [hk']
      have hcap : ((setHeight g u (g.nNodes : Int)).edges 0).cap = c := by
        show (g.edges 0).cap = c
        rw [hk']
      rw [setHeight_excess, (hN v).2.1]
      simp [hdst, hcap, hk']
  · intro n u v c h
    rw [buildGraph, addEdgePair_none (by simpa [newGraph] using h)]

/-- Witness for C9 (amended): the in-range, negative-capacity triple
`(0, 1, -1)` over two nodes is accepted and the engine sees capacity `-1`;
the out-of-range triple `(5, 1, 2)` makes construction abort. -/
theorem buildGraph_no_validation_witness :
    (∃ g, buildGraph (newGraph 2) [(0, 1, (-1 : ℚ))] = some g ∧
      (g.edges 0).cap = -1 ∧ (g.edges 0).src = 0 ∧ (g.edges 0).dst = 1 ∧
      ((initPreflow g 0 []).1.edges 0).flow = -1 ∧
      ((initPreflow g 0 []).1.nodes 1).excess = -1) ∧
    buildGraph (newGraph 2) [(5, 1, (2 : ℚ))] = none :=
  ⟨buildGraph_no_validation.1 2 0 1 (-1) (by decide) (by decide) (by decide),
    buildGraph_no_validation.2 2 5 1 2 (by decide)⟩

/-! ## C3: skew symmetry at every intermediate state -/

theorem skew_doPush {g : PRGraph} (uId eId : Nat) (q : List Nat)
    (hE : EdgesWF g) (helt : eId < g.nEdges) (hS : skewSym g) :
    skewSym (doPush g uId eId q).1 := by
  intro i hi
  have hm : (doPush g uId eId q).1.nEdges = g.nEdges :=
    (structEq_doPush g uId eId q).2.1
  rw [hm] at hi
  have hrev : (doPush g uId eId q).1.edges i = (doPush g uId eId q).1.edges i := rfl
  have hrevi : ((doPush g uId eId q).1.edges i).rev = (g.edges i).rev :=
    (structEq_doPush g uId eId q).2.2.2.2.2.2.1 i
  rw [hrevi]
  have hrne : (g.edges eId).rev ≠ eId := hE.revNe eId helt
  rcases eq_or_ne i eId with h1 | h1
  · subst h1
    rw [doPush_flow_e g uId i q hrne, doPush_flow_rev g uId i q hrne, hS i hi]
    ring
  · rcases eq_or_ne i ((g.edges eId).rev) with h2 | h2
    · subst h2
      have hinv : (g.edges ((g.edges eId).rev)).rev = eId := hE.revInvol eId helt
      rw [hinv]
      rw [doPush_flow_e g uId eId q hrne, doPush_flow_rev g uId eId q hrne]
      rw [hS eId helt]
      ring
    · have hr1 : (g.edges i).rev ≠ eId := by
        intro hcon
        have : (g.edges ((g.edges i).rev)).rev = i := hE.revInvol i hi
        rw [hcon] at this
        exact h2 this.symm
      have hr2 : (g.edges i).rev ≠ (g.edges eId).rev := by
        intro hcon
        have hc1 : (g.edges ((g.edges i).rev)).rev = i := hE.revInvol i hi
        rw [hcon] at hc1
        rw [hE.revInvol eId helt] at hc1
        exact h1 hc1.symm
      rw [doPush_flow_other g uId eId q _ hr1 hr2,
        doPush_flow_other g uId eId q i h1 h2]
      exact hS i hi

theorem skew_pushLoop (uId : Nat) (l : List (Nat × Nat)) :
    ∀ (g : PRGraph) (q : List Nat), EdgesWF g →
      (∀ p ∈ l, p.2 < g.nEdges) → skewSym g →
      skewSym (pushLoop uId l g q).1 := by
  induction l with
  | nil =>
    intro g q hE hl hS i hi
    exact hS i hi
  | cons p rest ih =>
    intro g q hE hl hS
    obtain ⟨i, eId⟩ := p
    rw [pushLoop]
    split
    · have hE1 : EdgesWF (setAdjIdx g uId i) :=
        edgesWF_of_structEq (structEq_setAdjIdx g uId i) hE
      have hS1 : skewSym (setAdjIdx g uId i) := hS
      exact skew_doPush uId eId q hE1
        (hl (i, eId) (List.mem_cons_self _ _)) hS1
    · exact ih (setAdjIdx g uId i) q
        (edgesWF_of_structEq (structEq_setAdjIdx g uId i) hE)
        (fun p hp => hl p (List.mem_cons_of_mem _ hp)) hS

theorem skew_push (g : PRGraph) (uId : Nat) (q : List Nat)
    (hE : EdgesWF g) (hA : adjWF g) (hu : uId < g.nNodes)
    (hS : skewSym g) : skewSym (push g uId q).1 := by
  apply skew_pushLoop uId _ g q hE _ hS
  intro p hp
  have hmem : p ∈ (g.nodes uId).adj.enum := List.drop_subset _ _ hp
  have h2 : p.2 ∈ (g.nodes uId).adj :=
    List.getElem?_mem (List.mem_enum_iff_getElem?.mp hmem)
  exact ((hA uId hu).1 p.2 h2).1

theorem initStep_flow {gq : PRGraph × List Nat} (eId : Nat)
    (hrne : (gq.1.edges eId).rev ≠ eId) :
    ∀ j, ((initStep gq eId).1.edges j).flow =
      if j = (gq.1.edges eId).rev then -(gq.1.edges eId).cap
      else if j = eId then (gq.1.edges eId).cap
      else (gq.1.edges j).flow := by
  intro j
  show ((addExcess _ _ _).edges j).flow = _
  rw [addExcess_edges]
  rcases eq_or_ne j ((gq.1.edges eId).rev) with h1 | h1
  · subst h1
    rw [if_pos rfl, setFlow_flow_same]
  · rw [if_neg h1, setFlow_flow_ne _ _ _ h1]
    rcases eq_or_ne j eId with h2 | h2
    · subst h2
      rw [if_pos rfl, setFlow_flow_same]
    · rw [if_neg h2, setFlow_flow_ne _ _ _ h2]

theorem skew_initStep {gq : PRGraph × List Nat} (eId : Nat)
    (hE : EdgesWF gq.1) (helt : eId < gq.1.nEdges) (hS : skewSym gq.1) :
    skewSym (initStep gq eId).1 := by
  intro i hi
  have hstruct := structEq_initStep gq eId
  rw [hstruct.2.1] at hi
  rw [hstruct.2.2.2.2.2.2.1 i]
  have hrne : (gq.1.edges eId).rev ≠ eId := hE.revNe eId helt
  rw [initStep_flow eId hrne, initStep_flow eId hrne]
  rcases eq_or_ne i eId with h1 | h1
  · subst h1
    rw [if_pos rfl, if_neg (Ne.symm hrne), if_pos rfl]
  · rcases eq_or_ne i ((gq.1.edges eId).rev) with h2 | h2
    · subst h2
      have hinv : (gq.1.edges ((gq.1.edges eId).rev)).rev = eId :=
        hE.revInvol eId helt
      rw [hinv, if_neg (Ne.symm hrne), if_pos rfl, if_pos rfl]
      ring
    · have hr1 : (gq.1.edges i).rev ≠ eId := by
        intro hcon
        have hc := hE.revInvol i hi
        rw [hcon] at hc
        exact h2 hc.symm
      have hr2 : (gq.1.edges i).rev ≠ (gq.1.edges eId).rev := by
        intro hcon
        have hc := hE.revInvol i hi
        rw [hcon, hE.revInvol eId helt] at hc
        exact h1 hc.symm
      rw [if_neg hr2, if_neg hr1, if_neg h2, if_neg h1]
      exact hS i hi

theorem skew_initFold :
    ∀ (l : List Nat) (gq : PRGraph × List Nat), EdgesWF gq.1 →
      (∀ e ∈ l, e < gq.1.nEdges) → skewSym gq.1 →
      skewSym (l.foldl initStep gq).1 := by
  intro l
  induction l with
  | nil => intro gq _ _ hS; exact hS
  | cons e0 rest ih =>
    intro gq hE hl hS
    have hfold : (e0 :: rest).foldl initStep gq =
        rest.foldl initStep (initStep gq e0) := rfl
    rw [hfold]
    have he0 := hl e0 (List.mem_cons_self _ _)
    have hstruct := structEq_initStep gq e0
    refine ih (initStep gq e0)
      (edgesWF_of_structEq hstruct hE) (fun e he => ?_)
      (skew_initStep e0 hE he0 hS)
    rw [hstruct.2.1]
    exact hl e (List.mem_cons_of_mem _ he)

theorem skew_initPreflow (g : PRGraph) (s : Nat) (q : List Nat)
    (hE : EdgesWF g) (hA : adjWF g) (hs : s < g.nNodes)
    (hS : skewSym g) : skewSym (initPreflow g s q).1 := by
  have hdefn : initPreflow g s q =
      (((setHeight g s (g.nNodes : Int)).nodes s).adj.foldl initStep
        (setHeight g s (g.nNodes : Int), q)) := rfl
  rw [hdefn]
  refine skew_initFold _ _ (edgesWF_of_structEq (structEq_setHeight g s _) hE)
    (fun e he => ?_) hS
  rw [setHeight_adj] at he
  exact ((hA s hs).1 e he).1

/-- C3: skew symmetry `flow(twin(e)) = -flow(e)` holds at every intermediate
state of solving: it holds after construction (`buildGraph` leaves every
flow at `0`), it is preserved by `initPreflow` (each saturation updates an
edge and its twin in tandem), and it is preserved by each individual `push`
(a push adds `delta` to an edge's flow and subtracts `delta` from its
twin's; a failed push changes no flow). -/
theorem skew_symmetry_invariant :
    (∀ (n : Nat) (tr : List (Nat × Nat × ℚ)) (g : PRGraph),
      buildGraph (newGraph n) tr = some g → skewSym g) ∧
    (∀ (g : PRGraph) (s : Nat) (q : List Nat),
      EdgesWF g → adjWF g → s < g.nNodes → skewSym g →
      skewSym (initPreflow g s q).1) ∧
    (∀ (g : PRGraph) (u : Nat) (q : List Nat),
      EdgesWF g → adjWF g → u < g.nNodes → skewSym g →
      skewSym (push g u q).1) := by
  refine ⟨?_, ?_, ?_⟩
  · intro n tr g h
    obtain ⟨_, _, hF, _, _, _⟩ := buildGraph_newGraph_ok h
    intro i hi
    rw [hF, hF]
    ring
  · intro g s q hE hA hs hS
    exact skew_initPreflow g s q hE hA hs hS
  · intro g u q hE hA hu hS
    exact skew_push g u q hE hA hu hS

/-- Witness for C3 on concrete states: the freshly built `pathG` is skew
symmetric, and so are the state after `initPreflow` and the state after a
further `push` on node `1`. -/
theorem skew_symmetry_invariant_witness :
    skewSym pathG ∧ skewSym (initPreflow pathG 0 []).1 ∧
      skewSym (push (initPreflow pathG 0 []).1 1 []).1 := by
  have hsome : buildGraph (newGraph 3) [(0, 1, 5), (1, 2, 5)] = some pathG := rfl
  have h1 : skewSym pathG := skew_symmetry_invariant.1 3 _ pathG hsome
  obtain ⟨hE, hA, _, _, hn, _⟩ := buildGraph_newGraph_ok hsome
  have h2 : skewSym (initPreflow pathG 0 []).1 :=
    skew_symmetry_invariant.2.1 pathG 0 [] hE hA (by omega) h1
  have hstruct := structEq_initPreflow pathG 0 []
  have h3 : skewSym (push (initPreflow pathG 0 []).1 1 []).1 :=
    skew_symmetry_invariant.2.2 (initPreflow pathG 0 []).1 1 []
      (edgesWF_of_structEq hstruct hE) (adjWF_of_structEq hstruct hA)
      (by rw [hstruct.1]; omega) h2
  exact ⟨h1, h2, h3⟩

/-! ## The engine invariant used for conservation and capacity bounds -/

/-- The per-graph part of the solving invariant: structure, non-negative
capacities, skew symmetry, flows bounded by capacities, non-negative
excesses, and agreement of the tracked excess with the entering flow for
every node other than the source. -/
structure CoreInv (s : Nat) (g : PRGraph) : Prop where
  wf : EdgesWF g
  adjwf : adjWF g
  caps : capsNonneg g
  skw : skewSym g
  fle : flowLeCap g
  exnn : excessNonneg g
  exeq : excessEq g s

/-- Like `activeQueued`, but exempting the node currently being
discharged. -/
def activeQueuedExcept (s t uId : Nat) (g : PRGraph) (q : List Nat) : Prop :=
  ∀ w < g.nNodes, w ≠ s → w ≠ t → w ≠ uId →
    0 < (g.nodes w).excess → w ∈ q

theorem inflow_setFlow (g : PRGraph) (j : Nat) (x : ℚ) (hj : j < g.nEdges)
    (w : Nat) :
    inflow (setFlow g j x) w = inflow g w +
      (if (g.edges j).dst = w then x - (g.edges j).flow else 0) := by
  unfold inflow
  rw [setFlow_nEdges]
  have hjmem : j ∈ Finset.range g.nEdges := Finset.mem_range.mpr hj
  rw [← Finset.add_sum_erase _ _ hjmem, ← Finset.add_sum_erase _ _ hjmem]
  have herase : ∑ i ∈ (Finset.range g.nEdges).erase j,
      (if ((setFlow g j x).edges i).dst = w
        then ((setFlow g j x).edges i).flow else 0) =
      ∑ i ∈ (Finset.range g.nEdges).erase j,
        (if (g.edges i).dst = w then (g.edges i).flow else 0) := by
    refine Finset.sum_congr rfl fun i hi => ?_
    have hij : i ≠ j := Finset.ne_of_mem_erase hi
    rw [setFlow_dst, setFlow_flow_ne _ _ _ hij]
  rw [herase, setFlow_dst, setFlow_flow_same]
  rcases eq_or_ne ((g.edges j).dst) w with h | h
  · rw [if_pos h, if_pos h, if_pos h]
    ring
  · rw [if_neg h, if_neg h, if_neg h]
    ring

theorem inflow_structEq_nodes (g : PRGraph) (nodes' : Nat → Node)
    (mf : ℚ) (w : Nat) :
    inflow { g with nodes := nodes', maxFlow := mf } w = inflow g w := rfl

@[simp] theorem addExcess_inflow (g : PRGraph) (u : Nat) (d : ℚ) (w : Nat) :
    inflow (addExcess g u d) w = inflow g w := rfl

@[simp] theorem setHeight_inflow (g : PRGraph) (u : Nat) (h : Int) (w : Nat) :
    inflow (setHeight g u h) w = inflow g w := rfl

@[simp] theorem setAdjIdx_inflow (g : PRGraph) (u i : Nat) (w : Nat) :
    inflow (setAdjIdx g u i) w = inflow g w := rfl

theorem doPush_inflow (g : PRGraph) (uId eId : Nat) (q : List Nat)
    (helt : eId < g.nEdges) (hrne : (g.edges eId).rev ≠ eId)
    (hrevlt : (g.edges eId).rev < g.nEdges) (w : Nat) :
    inflow (doPush g uId eId q).1 w = inflow g w +
      (if (g.edges eId).dst = w then pushDelta g uId eId else 0) +
      (if (g.edges ((g.edges eId).rev)).dst = w
        then -(pushDelta g uId eId) else 0) := by
  unfold doPush pushDelta
  dsimp only
  rw [addExcess_inflow, addExcess_inflow]
  rw [inflow_setFlow _ _ _ (by simpa using hrevlt)]
  rw [inflow_setFlow _ _ _ helt]
  rcases eq_or_ne ((g.edges eId).dst) w with h1 | h1 <;>
    rcases eq_or_ne ((g.edges ((g.edges eId).rev)).dst) w with h2 | h2 <;>
    simp [h1, h2] <;> ring

theorem doPush_inv (s t : Nat) {g : PRGraph} (uId eId : Nat) (q : List Nat)
    (hI : CoreInv s g) (helt : eId < g.nEdges)
    (hsrc : (g.edges eId).src = uId) (hu : uId < g.nNodes)
    (hres : 0 < (g.edges eId).cap - (g.edges eId).flow)
    (hvu : (g.edges eId).dst ≠ uId) :
    CoreInv s (doPush g uId eId q).1 ∧
    (queueWF g q → queueWF (doPush g uId eId q).1 (doPush g uId eId q).2) ∧
    (activeQueuedExcept s t uId g q →
      activeQueuedExcept s t uId (doPush g uId eId q).1 (doPush g uId eId q).2) := by
  have hstruct := structEq_doPush g uId eId q
  have hrne : (g.edges eId).rev ≠ eId := hI.wf.revNe eId helt
  have hrevlt : (g.edges eId).rev < g.nEdges := hI.wf.revLt eId helt
  have hd0 : 0 ≤ pushDelta g uId eId :=
    le_min (hI.exnn uId hu) (le_of_lt hres)
  have hdex : pushDelta g uId eId ≤ (g.nodes uId).excess := min_le_left _ _
  have hdres : pushDelta g uId eId ≤ (g.edges eId).cap - (g.edges eId).flow :=
    min_le_right _ _
  have hnn : (doPush g uId eId q).1.nNodes = g.nNodes := hstruct.1
  have hnm : (doPush g uId eId q).1.nEdges = g.nEdges := hstruct.2.1
  have hdstlt : (g.edges eId).dst < g.nNodes := hI.wf.dstLt eId helt
  have hrevdst : (g.edges ((g.edges eId).rev)).dst = uId := by
    rw [hI.wf.revDst eId helt, hsrc]
  have hqsub : ∀ x ∈ q, x ∈ (doPush g uId eId q).2 := by
    intro x hx
    unfold doPush
    dsimp only
    split
    · exact List.mem_append_left _ hx
    · exact hx
  refine ⟨⟨edgesWF_of_structEq hstruct hI.wf,
      adjWF_of_structEq hstruct hI.adjwf,
      capsNonneg_of_structEq hstruct hI.caps,
      skew_doPush uId eId q hI.wf helt hI.skw, ?_, ?_, ?_⟩, ?_, ?_⟩
  · -- flowLeCap
    intro i hi
    rw [hnm] at hi
    rw [hstruct.2.2.2.2.1 i]
    rcases eq_or_ne i eId with h1 | h1
    · subst h1
      rw [doPush_flow_e g uId i q hrne]
      linarith
    · rcases eq_or_ne i ((g.edges eId).rev) with h2 | h2
      · subst h2
        rw [doPush_flow_rev g uId eId q hrne]
        have := hI.fle _ hrevlt
        linarith
      · rw [doPush_flow_other g uId eId q i h1 h2]
        exact hI.fle i hi
  · -- excessNonneg
    intro w hw
    rw [hnn] at hw
    rcases eq_or_ne w uId with h1 | h1
    · rw [h1, doPush_excess_src g uId eId q hvu]
      rw [h1] at hw
      have := hI.exnn uId hw
      linarith
    · rcases eq_or_ne w ((g.edges eId).dst) with h2 | h2
      · rw [h2, doPush_excess_dst g uId eId q hvu]
        rw [h2] at hw
        have := hI.exnn _ hw
        linarith
      · rw [doPush_excess_other g uId eId q w h1 h2]
        exact hI.exnn w hw
  · -- excessEq
    intro w hw hws
    rw [hnn] at hw
    rw [doPush_inflow g uId eId q helt hrne hrevlt w]
    rw [hrevdst]
    rcases eq_or_ne w uId with h1 | h1
    · rw [h1] at hw hws ⊢
      rw [doPush_excess_src g uId eId q hvu]
      rw [if_neg (by exact fun h => hvu h), if_pos rfl]
      rw [hI.exeq uId hw hws]
      ring
    · rcases eq_or_ne w ((g.edges eId).dst) with h2 | h2
      · rw [h2] at hw hws h1 ⊢
        rw [doPush_excess_dst g uId eId q hvu]
        rw [if_pos rfl, if_neg (Ne.symm h1)]
        rw [hI.exeq _ hw hws]
        ring
      · rw [doPush_excess_other g uId eId q w h1 h2]
        rw [if_neg (Ne.symm h2), if_neg (Ne.symm h1)]
        rw [hI.exeq w hw hws]
        ring
  · -- queueWF
    intro hq x hx
    rw [hnn]
    have hq2 : (doPush g uId eId q).2 = (if (g.nodes ((g.edges eId).dst)).excess = 0
        then q ++ [(g.edges eId).dst] else q) := doPush_queue g uId eId q hvu
    rw [hq2] at hx
    rcases (by split at hx <;> [rcases List.mem_append.mp hx with h | h;
      exact Or.inl hx] <;> [exact Or.inl h; exact Or.inr h] :
      x ∈ q ∨ x ∈ [(g.edges eId).dst]) with h | h
    · exact hq x h
    · rw [List.mem_singleton] at h
      subst h
      exact hdstlt
  · -- activeQueuedExcept
    intro hact w hw hws hwt hwu hpos
    rw [hnn] at hw
    rcases eq_or_ne w ((g.edges eId).dst) with h2 | h2
    · subst h2
      have hq2 := doPush_queue g uId eId q hvu
      rcases eq_or_ne ((g.nodes ((g.edges eId).dst)).excess) 0 with hz | hz
      · rw [hq2, if_pos hz]
        exact List.mem_append_right _ (List.mem_singleton.mpr rfl)
      · have hprev : 0 < (g.nodes ((g.edges eId).dst)).excess :=
          lt_of_le_of_ne (hI.exnn _ hw) (Ne.symm hz)
        exact hqsub _ (hact _ hw hws hwt hwu hprev)
    · rw [doPush_excess_other g uId eId q w hwu h2] at hpos
      exact hqsub _ (hact w hw hws hwt hwu hpos)

theorem coreInv_setAdjIdx {s : Nat} {g : PRGraph} (u i : Nat)
    (hI : CoreInv s g) : CoreInv s (setAdjIdx g u i) := by
  have hstruct := structEq_setAdjIdx g u i
  refine ⟨edgesWF_of_structEq hstruct hI.wf,
    adjWF_of_structEq hstruct hI.adjwf,
    capsNonneg_of_structEq hstruct hI.caps, hI.skw, hI.fle, ?_, ?_⟩
  · intro w hw
    rw [setAdjIdx_excess]
    exact hI.exnn w hw
  · intro w hw hws
    rw [setAdjIdx_excess, setAdjIdx_inflow]
    exact hI.exeq w hw hws

theorem coreInv_setHeight {s : Nat} {g : PRGraph} (u : Nat) (h : Int)
    (hI : CoreInv s g) : CoreInv s (setHeight g u h) := by
  have hstruct := structEq_setHeight g u h
  refine ⟨edgesWF_of_structEq hstruct hI.wf,
    adjWF_of_structEq hstruct hI.adjwf,
    capsNonneg_of_structEq hstruct hI.caps, hI.skw, hI.fle, ?_, ?_⟩
  · intro w hw
    rw [setHeight_excess]
    exact hI.exnn w hw
  · intro w hw hws
    rw [setHeight_excess, setHeight_inflow]
    exact hI.exeq w hw hws

theorem mem_adj_of_enum_drop {g : PRGraph} {uId : Nat} {p : Nat × Nat}
    (hp : p ∈ ((g.nodes uId).adj.enum).drop (g.nodes uId).adjIdx) :
    p.2 ∈ (g.nodes uId).adj :=
  List.getElem?_mem
    (List.mem_enum_iff_getElem?.mp (List.drop_subset _ _ hp))

theorem pushLoop_inv (s t uId : Nat) :
    ∀ (l : List (Nat × Nat)) (g : PRGraph) (q : List Nat),
      CoreInv s g → uId < g.nNodes →
      (∀ p ∈ l, p.2 ∈ (g.nodes uId).adj) →
      queueWF g q → activeQueuedExcept s t uId g q →
      CoreInv s (pushLoop uId l g q).1 ∧
      queueWF (pushLoop uId l g q).1 (pushLoop uId l g q).2.1 ∧
      activeQueuedExcept s t uId (pushLoop uId l g q).1
        (pushLoop uId l g q).2.1 := by
  intro l
  induction l with
  | nil =>
    intro g q hI hu hl hq hact
    simp only [pushLoop]
    refine ⟨coreInv_setAdjIdx uId 0 hI, ?_, ?_⟩
    · intro x hx
      exact hq x hx
    · intro w hw hws hwt hwu hpos
      rw [setAdjIdx_excess] at hpos
      exact hact w hw hws hwt hwu hpos
  | cons p rest ih =>
    intro g q hI hu hl hq hact
    obtain ⟨i, eId⟩ := p
    have hmem : eId ∈ (g.nodes uId).adj := hl (i, eId) (List.mem_cons_self _ _)
    obtain ⟨helt, hsrc⟩ := (hI.adjwf uId hu).1 eId hmem
    have hI1 : CoreInv s (setAdjIdx g uId i) := coreInv_setAdjIdx uId i hI
    have hq1 : queueWF (setAdjIdx g uId i) q := fun x hx => hq x hx
    have hact1 : activeQueuedExcept s t uId (setAdjIdx g uId i) q := by
      intro w hw hws hwt hwu hpos
      rw [setAdjIdx_excess] at hpos
      exact hact w hw hws hwt hwu hpos
    rw [pushLoop]
    split
    · rename_i hadm
      simp only [setAdjIdx_edges, setAdjIdx_height] at hadm
      obtain ⟨hres, hht⟩ := hadm
      have hvu : (g.edges eId).dst ≠ uId := by
        intro he
        rw [he] at hht
        omega
      have helt1 : eId < (setAdjIdx g uId i).nEdges := helt
      have hsrc1 : ((setAdjIdx g uId i).edges eId).src = uId := hsrc
      have hu1 : uId < (setAdjIdx g uId i).nNodes := hu
      have hres1 : 0 < ((setAdjIdx g uId i).edges eId).cap -
          ((setAdjIdx g uId i).edges eId).flow := hres
      have hvu1 : ((setAdjIdx g uId i).edges eId).dst ≠ uId := hvu
      obtain ⟨hC, hQ, hA⟩ := doPush_inv s t uId eId q hI1 helt1 hsrc1 hu1
        hres1 hvu1
      exact ⟨hC, hQ hq1, hA hact1⟩
    · refine ih (setAdjIdx g uId i) q hI1 hu ?_ hq1 hact1
      intro p hp
      rw [setAdjIdx_adj]
      exact hl p (List.mem_cons_of_mem _ hp)

theorem push_inv (s t : Nat) {g : PRGraph} (uId : Nat) (q : List Nat)
    (hI : CoreInv s g) (hu : uId < g.nNodes)
    (hq : queueWF g q) (hact : activeQueuedExcept s t uId g q) :
    CoreInv s (push g uId q).1 ∧
    queueWF (push g uId q).1 (push g uId q).2.1 ∧
    activeQueuedExcept s t uId (push g uId q).1 (push g uId q).2.1 :=
  pushLoop_inv s t uId _ g q hI hu (fun p hp => mem_adj_of_enum_drop hp)
    hq hact

theorem relabel_core_inv (s : Nat) {g : PRGraph} (uId : Nat) (q : List Nat)
    (hI : CoreInv s g) :
    CoreInv s (relabel g uId q).1 ∧ (relabel g uId q).2 = q := by
  refine ⟨coreInv_setHeight uId _ hI, rfl⟩

theorem loopStep_inv (s t : Nat) (g : PRGraph) (q : List Nat)
    (hI : CoreInv s g) (hq : queueWF g q) (hact : activeQueued s t g q) :
    CoreInv s (loopStep s t (g, q)).1 ∧
    queueWF (loopStep s t (g, q)).1 (loopStep s t (g, q)).2 ∧
    activeQueued s t (loopStep s t (g, q)).1 (loopStep s t (g, q)).2 := by
  cases q with
  | nil => exact ⟨hI, hq, hact⟩
  | cons uId rest =>
    have hu : uId < g.nNodes := hq uId (List.mem_cons_self _ _)
    have hqrest : queueWF g rest := fun x hx => hq x (List.mem_cons_of_mem _ hx)
    rw [loopStep]
    split
    · rename_i hskip
      refine ⟨hI, hqrest, ?_⟩
      intro w hw hws hwt hpos
      have hwu : w ≠ uId := by
        rcases hskip with h | h <;> [exact h ▸ hwt; exact h ▸ hws]
      rcases List.mem_cons.mp (hact w hw hws hwt hpos) with h | h
      · exact absurd h hwu
      · exact h
    · rename_i hnoskip
      have hactx : activeQueuedExcept s t uId g rest := by
        intro w hw hws hwt hwu hpos
        rcases List.mem_cons.mp (hact w hw hws hwt hpos) with h | h
        · exact absurd h hwu
        · exact h
      obtain ⟨hC, hQ, hA⟩ := push_inv s t uId rest hI hu hqrest hactx
      dsimp only
      by_cases hb : (push g uId rest).2.2 = true
      · rw [if_pos hb]
        dsimp only
        have hnn : (push g uId rest).1.nNodes = g.nNodes :=
          (structEq_push g uId rest).1
        split
        · rename_i hpos
          refine ⟨hC, ?_, ?_⟩
          · intro x hx
            rcases List.mem_append.mp hx with h | h
            · exact hQ x h
            · rw [List.mem_singleton] at h
              rw [h, hnn]
              exact hu
          · intro w hw hws hwt hwex
            rcases eq_or_ne w uId with h | h
            · exact List.mem_append_right _ (by rw [h]; exact List.mem_singleton.mpr rfl)
            · exact List.mem_append_left _ (hA w hw hws hwt h hwex)
        · rename_i hnpos
          refine ⟨hC, hQ, ?_⟩
          intro w hw hws hwt hwex
          rcases eq_or_ne w uId with h | h
          · rw [h] at hwex
            exact absurd hwex hnpos
          · exact hA w hw hws hwt h hwex
      · rw [if_neg hb]
        have hrel := relabel_core_inv s uId (push g uId rest).2.1 hC
        have hCrel := hrel.1
        have hqrel : (relabel (push g uId rest).1 uId (push g uId rest).2.1).2 =
          (push g uId rest).2.1 := hrel.2
        have hnn : (relabel (push g uId rest).1 uId
            (push g uId rest).2.1).1.nNodes = g.nNodes := by
          rw [(structEq_relabel (push g uId rest).1 uId _).1,
            (structEq_push g uId rest).1]
        have hexc : ∀ w, ((relabel (push g uId rest).1 uId
            (push g uId rest).2.1).1.nodes w).excess =
            ((push g uId rest).1.nodes w).excess := by
          intro w
          show ((setHeight _ _ _).nodes w).excess = _
          rw [setHeight_excess]
        split
        · rename_i hpos
          refine ⟨hCrel, ?_, ?_⟩
          · intro x hx
            rw [hqrel] at hx
            rcases List.mem_append.mp hx with h | h
            · rw [hnn]
              have := hQ x h
              rwa [(structEq_push g uId rest).1] at this
            · rw [List.mem_singleton] at h
              rw [h, hnn]
              exact hu
          · intro w hw hws hwt hwex
            rw [hqrel]
            rcases eq_or_ne w uId with h | h
            · exact List.mem_append_right _ (by rw [h]; exact List.mem_singleton.mpr rfl)
            · refine List.mem_append_left _ ?_
              rw [hnn] at hw
              rw [hexc w] at hwex
              exact hA w (by rw [(structEq_push g uId rest).1]; exact hw)
                hws hwt h hwex
        · rename_i hnpos
          refine ⟨hCrel, ?_, ?_⟩
          · intro x hx
            rw [hqrel] at hx
            rw [hnn]
            have := hQ x hx
            rwa [(structEq_push g uId rest).1] at this
          · intro w hw hws hwt hwex
            rw [hqrel]
            rcases eq_or_ne w uId with h | h
            · rw [h] at hwex
              rw [hexc uId] at hwex
              exact absurd hwex (by rwa [hexc uId] at hnpos)
            · rw [hnn] at hw
              rw [hexc w] at hwex
              exact hA w (by rw [(structEq_push g uId rest).1]; exact hw)
                hws hwt h hwex

theorem runLoop_inv (s t : Nat) :
    ∀ (k : Nat) (g : PRGraph) (q : List Nat),
      CoreInv s g → queueWF g q → activeQueued s t g q →
      CoreInv s (runLoop s t k (g, q)).1 ∧
      queueWF (runLoop s t k (g, q)).1 (runLoop s t k (g, q)).2 ∧
      activeQueued s t (runLoop s t k (g, q)).1 (runLoop s t k (g, q)).2 := by
  intro k
  induction k with
  | zero => exact fun g q hI hq hact => ⟨hI, hq, hact⟩
  | succ k ih =>
    intro g q hI hq hact
    cases q with
    | nil => exact ⟨hI, hq, hact⟩
    | cons uId rest =>
      obtain ⟨hC, hQ, hA⟩ := loopStep_inv s t g (uId :: rest) hI hq hact
      have hrw : runLoop s t (k + 1) (g, uId :: rest) =
          runLoop s t k (loopStep s t (g, uId :: rest)) := rfl
      rw [hrw]
      exact ih (loopStep s t (g, uId :: rest)).1
        (loopStep s t (g, uId :: rest)).2 hC hQ hA

theorem initStep_excess {gq : PRGraph × List Nat} (eId : Nat) (w : Nat) :
    ((initStep gq eId).1.nodes w).excess = (gq.1.nodes w).excess +
      (if (gq.1.edges eId).dst = w then (gq.1.edges eId).cap else 0) := by
  unfold initStep
  dsimp only
  rw [addExcess_excess]
  rcases eq_or_ne w (((setFlow (setFlow gq.1 eId (gq.1.edges eId).cap)
      ((gq.1.edges eId).rev) (-(gq.1.edges eId).cap)).edges eId).dst) with hw | hw
  · simp only [setFlow_dst] at hw
    rw [if_pos hw]
    simp [hw]
  · simp only [setFlow_dst] at hw
    rw [if_neg hw, if_neg (fun hcon => hw hcon.symm)]
    simp

theorem initStep_inflow {gq : PRGraph × List Nat} (eId : Nat)
    (hE : EdgesWF gq.1) (helt : eId < gq.1.nEdges) (w : Nat) :
    inflow (initStep gq eId).1 w = inflow gq.1 w +
      (if (gq.1.edges eId).dst = w
        then (gq.1.edges eId).cap - (gq.1.edges eId).flow else 0) +
      (if (gq.1.edges ((gq.1.edges eId).rev)).dst = w
        then -(gq.1.edges eId).cap -
          (gq.1.edges ((gq.1.edges eId).rev)).flow else 0) := by
  have hrevlt := hE.revLt eId helt
  unfold initStep
  dsimp only
  rw [addExcess_inflow]
  rw [inflow_setFlow _ _ _ (by simpa using hrevlt)]
  rw [inflow_setFlow _ _ _ helt]
  have hrne := hE.revNe eId helt
  rw [setFlow_dst, setFlow_flow_ne _ _ _ hrne]

theorem initFold_inv (s t : Nat) :
    ∀ (l : List Nat) (g1 : PRGraph) (q1 : List Nat),
      CoreInv s g1 → queueWF g1 q1 → activeQueued s t g1 q1 →
      (∀ e ∈ l, e < g1.nEdges ∧ (g1.edges e).src = s) → l.Nodup →
      (∀ e ∈ l, (g1.edges e).dst ≠ s → (g1.edges e).flow = 0) →
      CoreInv s (l.foldl initStep (g1, q1)).1 ∧
      queueWF (l.foldl initStep (g1, q1)).1 (l.foldl initStep (g1, q1)).2 ∧
      activeQueued s t (l.foldl initStep (g1, q1)).1
        (l.foldl initStep (g1, q1)).2 := by
  intro l
  induction l with
  | nil => exact fun g1 q1 hI hq hact _ _ _ => ⟨hI, hq, hact⟩
  | cons e0 rest ih =>
    intro g1 q1 hI hq hact hP hND hz
    obtain ⟨he0lt, he0src⟩ := hP e0 (List.mem_cons_self _ _)
    have hrne : (g1.edges e0).rev ≠ e0 := hI.wf.revNe e0 he0lt
    have hrevlt : (g1.edges e0).rev < g1.nEdges := hI.wf.revLt e0 he0lt
    have hrevdst : (g1.edges ((g1.edges e0).rev)).dst = s := by
      rw [hI.wf.revDst e0 he0lt, he0src]
    have hdstlt : (g1.edges e0).dst < g1.nNodes := hI.wf.dstLt e0 he0lt
    have hstruct := structEq_initStep (g1, q1) e0
    have hfold : (e0 :: rest).foldl initStep (g1, q1) =
        rest.foldl initStep (initStep (g1, q1) e0) := rfl
    rw [hfold]
    -- the invariant after one initStep
    have hC3 : CoreInv s (initStep (g1, q1) e0).1 := by
      refine ⟨edgesWF_of_structEq hstruct hI.wf,
        adjWF_of_structEq hstruct hI.adjwf,
        capsNonneg_of_structEq hstruct hI.caps,
        skew_initStep e0 hI.wf he0lt hI.skw, ?_, ?_, ?_⟩
      · intro i hi
        rw [hstruct.2.1] at hi
        rw [hstruct.2.2.2.2.1 i]
        rw [initStep_flow e0 hrne]
        rcases eq_or_ne i ((g1.edges e0).rev) with h1 | h1
        · rw [if_pos h1, h1]
          have h2 := hI.caps e0 he0lt
          have h3 := hI.caps _ hrevlt
          linarith
        · rw [if_neg h1]
          rcases eq_or_ne i e0 with h2 | h2
          · rw [if_pos h2, h2]
          · rw [if_neg h2]
            exact hI.fle i hi
      · intro w hw
        rw [hstruct.1] at hw
        rw [initStep_excess e0 w]
        have := hI.exnn w hw
        have hc := hI.caps e0 he0lt
        split <;> linarith
      · intro w hw hws
        rw [hstruct.1] at hw
        rw [initStep_excess e0 w, initStep_inflow e0 hI.wf he0lt w]
        rw [hrevdst, if_neg (show ¬ s = w from fun hcon => hws hcon.symm)]
        rcases eq_or_ne ((g1.edges e0).dst) w with h1 | h1
        · rw [if_pos h1, if_pos h1]
          have hflow0 : (g1.edges e0).flow = 0 := by
            refine hz e0 (List.mem_cons_self _ _) ?_
            rw [h1]
            exact hws
          rw [hI.exeq w hw hws, hflow0]
          ring
        · rw [if_neg h1, if_neg h1]
          rw [hI.exeq w hw hws]
          ring
    have hq3 : queueWF (initStep (g1, q1) e0).1 (initStep (g1, q1) e0).2 := by
      intro x hx
      have hx2 : x ∈ q1 ++ [(g1.edges e0).dst] := hx
      rw [hstruct.1]
      rcases List.mem_append.mp hx2 with h | h
      · exact hq x h
      · rw [List.mem_singleton] at h
        rw [h]
        exact hdstlt
    have hact3 : activeQueued s t (initStep (g1, q1) e0).1
        (initStep (g1, q1) e0).2 := by
      intro w hw hws hwt hpos
      rw [hstruct.1] at hw
      have hsup : ∀ x ∈ q1, x ∈ (initStep (g1, q1) e0).2 := by
        intro x hx
        exact List.mem_append_left _ hx
      rcases eq_or_ne w ((g1.edges e0).dst) with h1 | h1
      · refine List.mem_append_right _ ?_
        rw [List.mem_singleton, h1]
      · rw [initStep_excess e0 w, if_neg (Ne.symm h1), add_zero] at hpos
        exact hsup w (hact w hw hws hwt hpos)
    refine ih (initStep (g1, q1) e0).1 (initStep (g1, q1) e0).2 hC3 hq3 hact3
      ?_ hND.of_cons ?_
    · intro e he
      rw [hstruct.2.1, hstruct.2.2.1 e]
      exact hP e (List.mem_cons_of_mem _ he)
    · intro e he hdst
      rw [hstruct.2.2.2.1 e] at hdst
      rw [initStep_flow e0 hrne]
      have hne0 : e ≠ e0 := fun hcon =>
        (List.nodup_cons.mp hND).1 (hcon ▸ he)
      rw [if_neg ?_, if_neg hne0]
      · exact hz e (List.mem_cons_of_mem _ he) hdst
      · intro hcon
        apply hdst
        rw [hcon, hrevdst]

/-- A graph with all flows zero has zero entering flow at every node. -/
theorem inflow_zero_of_flows0 {g : PRGraph} (hF : flows0 g) (w : Nat) :
    inflow g w = 0 := by
  unfold inflow
  refine Finset.sum_eq_zero fun i _ => ?_
  rw [hF i, ite_self]

/-- A freshly built graph (zero flows, zero node scalars, non-negative
capacities) satisfies the solving invariant for any source. -/
theorem coreInv_of_built {g : PRGraph} (s : Nat)
    (hE : EdgesWF g) (hA : adjWF g) (hF : flows0 g) (hN : nodes0 g)
    (hC : capsNonneg g) : CoreInv s g := by
  refine ⟨hE, hA, hC, ?_, ?_, ?_, ?_⟩
  · intro i _
    rw [hF, hF]
    ring
  · intro i hi
    rw [hF]
    exact hC i hi
  · intro w _
    exact le_of_eq ((hN w).2.1).symm
  · intro w _ _
    rw [(hN w).2.1, inflow_zero_of_flows0 hF]

/-- `initPreflow` establishes the solving invariant, a well-formed queue,
and the fact that every active non-source non-sink node is queued. -/
theorem initPreflow_inv (s t : Nat) {g : PRGraph} (q : List Nat)
    (hE : EdgesWF g) (hA : adjWF g) (hF : flows0 g) (hN : nodes0 g)
    (hC : capsNonneg g) (hs : s < g.nNodes) (hq : queueWF g q) :
    CoreInv s (initPreflow g s q).1 ∧
    queueWF (initPreflow g s q).1 (initPreflow g s q).2 ∧
    activeQueued s t (initPreflow g s q).1 (initPreflow g s q).2 := by
  have hdefn : initPreflow g s q =
      (((setHeight g s (g.nNodes : Int)).nodes s).adj.foldl initStep
        (setHeight g s (g.nNodes : Int), q)) := rfl
  rw [hdefn]
  have hI0 : CoreInv s (setHeight g s (g.nNodes : Int)) :=
    coreInv_setHeight s (g.nNodes : Int) (coreInv_of_built s hE hA hF hN hC)
  have hq0 : queueWF (setHeight g s (g.nNodes : Int)) q := by
    intro x hx
    rw [setHeight_nNodes]
    exact hq x hx
  have ha0 : activeQueued s t (setHeight g s (g.nNodes : Int)) q := by
    intro w hw hws hwt hpos
    rw [setHeight_excess, (hN w).2.1] at hpos
    exact absurd hpos (lt_irrefl 0)
  refine initFold_inv s t _ _ _ hI0 hq0 ha0 ?_ ?_ ?_
  · intro e he
    rw [setHeight_adj] at he
    rw [setHeight_nEdges, setHeight_edges]
    exact (hA s hs).1 e he
  · rw [setHeight_adj]
    exact (hA s hs).2
  · intro e he hdst
    rw [setHeight_edges]
    exact hF e

/-- When `maxFlow` returns (the queue drains within the fuel), the final
graph satisfies the solving invariant, every node other than the source and
the sink has zero excess, and the stored answer is the sink's excess. -/
theorem maxFlow_inv (s t fuel : Nat) {g gf : PRGraph}
    (hE : EdgesWF g) (hA : adjWF g) (hF : flows0 g) (hN : nodes0 g)
    (hC : capsNonneg g) (hs : s < g.nNodes)
    (hrun : maxFlow fuel g s t = some gf) :
    CoreInv s gf ∧
    (∀ u < gf.nNodes, u ≠ s → u ≠ t → (gf.nodes u).excess = 0) ∧
    gf.maxFlow = (gf.nodes t).excess := by
  obtain ⟨hI0, hq0, ha0⟩ := initPreflow_inv s t [] hE hA hF hN hC hs
    (fun x hx => absurd hx (List.not_mem_nil x))
  have hR := runLoop_inv s t fuel (initPreflow g s []).1
    (initPreflow g s []).2 hI0 hq0 ha0
  have hI1 : CoreInv s (runLoop s t fuel (initPreflow g s [])).1 := hR.1
  have ha1 : activeQueued s t (runLoop s t fuel (initPreflow g s [])).1
      (runLoop s t fuel (initPreflow g s [])).2 := hR.2.2
  have hrun' : (if (runLoop s t fuel (initPreflow g s [])).2 = []
      then some { (runLoop s t fuel (initPreflow g s [])).1 with
        maxFlow := (((runLoop s t fuel (initPreflow g s [])).1).nodes t).excess }
      else none) = some gf := hrun
  by_cases hqe : (runLoop s t fuel (initPreflow g s [])).2 = []
  · rw [if_pos hqe] at hrun'
    have hgf := (Option.some_inj.mp hrun').symm
    subst hgf
    refine ⟨⟨⟨hI1.wf.revLt, hI1.wf.revInvol, hI1.wf.revNe, hI1.wf.revSrc,
      hI1.wf.revDst, hI1.wf.revFlag, hI1.wf.revCap0, hI1.wf.srcLt,
      hI1.wf.dstLt⟩, hI1.adjwf, hI1.caps, hI1.skw, hI1.fle, hI1.exnn,
      hI1.exeq⟩, ?_, rfl⟩
    intro u hu hus hut
    rcases lt_or_eq_of_le (hI1.exnn u hu) with hlt | heq
    · have hmem := ha1 u hu hus hut hlt
      rw [hqe] at hmem
      exact absurd hmem (List.not_mem_nil u)
    · exact heq.symm
  · rw [if_neg hqe] at hrun'
    exact absurd hrun' (fun h => Option.noConfusion h)

/-- Under skew symmetry, the total flow leaving a node is the negation of
the total flow entering it (the twin pairing reindexes one sum into the
other). -/
theorem outflow_eq_neg_inflow {g : PRGraph} (hE : EdgesWF g)
    (hsk : skewSym g) (u : Nat) : outflow g u = -inflow g u := by
  unfold outflow inflow
  rw [← Finset.sum_neg_distrib]
  refine Finset.sum_bij' (fun a _ => (g.edges a).rev)
    (fun b _ => (g.edges b).rev) ?_ ?_ ?_ ?_ ?_
  · intro a ha
    exact Finset.mem_range.mpr (hE.revLt a (Finset.mem_range.mp ha))
  · intro b hb
    exact Finset.mem_range.mpr (hE.revLt b (Finset.mem_range.mp hb))
  · intro a ha
    exact hE.revInvol a (Finset.mem_range.mp ha)
  · intro b hb
    exact hE.revInvol b (Finset.mem_range.mp hb)
  · intro a ha
    have halt := Finset.mem_range.mp ha
    rw [hE.revDst a halt, hsk a halt]
    rcases eq_or_ne ((g.edges a).src) u with h1 | h1
    · rw [if_pos h1, if_pos h1]
      ring
    · rw [if_neg h1, if_neg h1]
      ring

/-- C4: when `maxFlow` returns (the discharge loop drains its queue), every
node other than the source and the sink conserves flow — the total entering
flow equals the total leaving flow over all edges, originals and twins, and
its tracked excess is zero — and the stored `maxFlow` answer equals the
final excess at the sink. -/
theorem conservation_at_termination {n : Nat} {l : List (Nat × Nat × ℚ)}
    {g gf : PRGraph} (s t fuel : Nat)
    (hb : buildGraph (newGraph n) l = some g)
    (hcaps : ∀ p ∈ l, 0 ≤ p.2.2)
    (hs : s < n)
    (hrun : maxFlow fuel g s t = some gf) :
    (∀ u < gf.nNodes, u ≠ s → u ≠ t →
      inflow gf u = outflow gf u ∧ (gf.nodes u).excess = 0) ∧
    gf.maxFlow = (gf.nodes t).excess := by
  obtain ⟨hE, hA, hF, hN, hn, hc⟩ := buildGraph_newGraph_ok hb
  have hsg : s < g.nNodes := by rw [hn]; exact hs
  obtain ⟨hI, hz, hm⟩ := maxFlow_inv s t fuel hE hA hF hN (hc hcaps) hsg hrun
  refine ⟨?_, hm⟩
  intro u hu hus hut
  have he0 : (gf.nodes u).excess = 0 := hz u hu hus hut
  have hin : inflow gf u = 0 := by
    rw [← hI.exeq u hu hus]
    exact he0
  have hout : outflow gf u = 0 := by
    rw [outflow_eq_neg_inflow hI.wf hI.skw u, hin, neg_zero]
  rw [hin, hout]
  exact ⟨rfl, he0⟩

/-- The graph built from the path input is `pathG`. -/
theorem pathG_build :
    buildGraph (newGraph 3) [(0, 1, 5), (1, 2, 5)] = some pathG := rfl

/-- The final graph of solving `pathG` from source `0` to sink `2` (the
queue drains in three iterations). -/
def pathFinalG : PRGraph := (maxFlow 6 pathG 0 2).getD (newGraph 0)

/-- Solving `pathG` with fuel `6` drains the queue and returns
`pathFinalG`. -/
theorem pathG_run : maxFlow 6 pathG 0 2 = some pathFinalG := rfl

/-- Witness for C4 on the solved path graph: the interior node `1` conserves
flow with zero final excess, and the stored answer is the sink's excess. -/
theorem conservation_at_termination_witness :
    (inflow pathFinalG 1 = outflow pathFinalG 1 ∧
      (pathFinalG.nodes 1).excess = 0) ∧
    pathFinalG.maxFlow = (pathFinalG.nodes 2).excess := by
  have h := @conservation_at_termination 3 [(0, 1, 5), (1, 2, 5)] pathG
    pathFinalG 0 2 6 pathG_build (by decide) (by decide) pathG_run
  exact ⟨h.1 1 (by decide) (by decide) (by decide), h.2⟩

/-- C5 (amended): after solving completes, every original edge carries a
flow between `0` and its capacity, and every synthetic reverse twin carries
a flow between the negation of its forward twin's capacity and `0`. -/
theorem capacity_bounds_after_solve {n : Nat} {l : List (Nat × Nat × ℚ)}
    {g gf : PRGraph} (s t fuel : Nat)
    (hb : buildGraph (newGraph n) l = some g)
    (hcaps : ∀ p ∈ l, 0 ≤ p.2.2)
    (hs : s < n)
    (hrun : maxFlow fuel g s t = some gf) :
    ∀ i < gf.nEdges,
      ((gf.edges i).isRev = false →
        0 ≤ (gf.edges i).flow ∧ (gf.edges i).flow ≤ (gf.edges i).cap) ∧
      ((gf.edges i).isRev = true →
        -(gf.edges ((gf.edges i).rev)).cap ≤ (gf.edges i).flow ∧
          (gf.edges i).flow ≤ 0) := by
  obtain ⟨hE, hA, hF, hN, hn, hc⟩ := buildGraph_newGraph_ok hb
  have hsg : s < g.nNodes := by rw [hn]; exact hs
  obtain ⟨hI, -, -⟩ := maxFlow_inv s t fuel hE hA hF hN (hc hcaps) hsg hrun
  intro i hi
  have hrlt := hI.wf.revLt i hi
  have hflur : (gf.edges ((gf.edges i).rev)).flow = -(gf.edges i).flow :=
    hI.skw i hi
  constructor
  · intro hrev
    have hflag := hI.wf.revFlag i hi
    rw [hrev] at hflag
    have hcap0 := hI.wf.revCap0 _ hrlt (by rw [hflag]; rfl)
    have hfle := hI.fle _ hrlt
    rw [hcap0, hflur] at hfle
    exact ⟨by linarith, hI.fle i hi⟩
  · intro hrev
    have hcap0 := hI.wf.revCap0 i hi hrev
    have hfle := hI.fle _ hrlt
    rw [hflur] at hfle
    refine ⟨by linarith, ?_⟩
    rw [← hcap0]
    exact hI.fle i hi

/-- Witness for C5 (amended) on the solved path graph: the original edge `0`
carries flow `5` in `[0, 5]`, and its reverse twin (edge `1`) carries flow
`-5` in `[-5, 0]`. -/
theorem capacity_bounds_after_solve_witness :
    (0 ≤ (pathFinalG.edges 0).flow ∧
      (pathFinalG.edges 0).flow ≤ (pathFinalG.edges 0).cap) ∧
    (-(pathFinalG.edges ((pathFinalG.edges 1).rev)).cap ≤
        (pathFinalG.edges 1).flow ∧ (pathFinalG.edges 1).flow ≤ 0) := by
  have h := @capacity_bounds_after_solve 3 [(0, 1, 5), (1, 2, 5)] pathG
    pathFinalG 0 2 6 pathG_build (by decide) (by decide) pathG_run
  exact ⟨(h 0 (by decide)).1 (by decide), (h 1 (by decide)).2 (by decide)⟩
